import Mathlib

/-!
# World Encyclopedia: the client-side presentation pipeline of `src/js/app.js`

A shallow embedding of the fetch → filter → sort → render pipeline.

Modelling conventions.

* JavaScript strings are Lean strings.  Lengths, `substring` indices and the
  order `<` are taken per code point; they coincide with the UTF-16 code-unit
  notions of JavaScript on every text without characters above U+FFFF.
* `String.prototype.toLowerCase` and the network are supplied by the host
  (`Host`): the definitions take them as arguments and the theorems hold for
  every host.
* JavaScript numbers are doubles, kept as exact dyadic values or infinities
  (`JSNumber`); `none` stands for `NaN`, and the sign of zero is not kept.
* The DOM is a record of the fields the script reads and writes (`Dom`); a card
  element is the record of the text contents of its children (`Card`).  Markup
  assigned through `innerHTML` is represented by the text it renders to, the
  interpolated record fields being taken as plain text.
* An exception is a value of `JSError`; a function that can throw returns an
  `Except`, together with the state reached when it threw.
-/

namespace WorldEncyclopedia

/-! ## JavaScript values and built-ins -/

/-- What a filter callback can evaluate to in this script: nothing (`undefined`,
the value of a block body without `return`) or a boolean value. -/
inductive JSValue where
  | undefined
  | bool (b : Bool)
  deriving DecidableEq, Repr

/-- Truthiness (`ToBoolean`) of a callback result. -/
def JSValue.truthy : JSValue → Bool
  | .undefined => false
  | .bool b => b

/-- JS truthiness of a string: every string but the empty one. -/
def truthyString (s : String) : Bool := s ≠ ""

/-- Exceptions raised by the script or by the built-ins it calls. -/
inductive JSError where
  /-- `new Error("Failed to fetch data: " + query)` thrown by `fetchData`. -/
  | failedToFetch (query : String)
  /-- The promise of `fetch` or of `response.json()` was rejected. -/
  | rejected (query : String)
  /-- `TypeError`: a property was read from `undefined` or `null`. -/
  | typeError (expr : String)
  deriving DecidableEq, Repr

/-- `Array.prototype.filter`: keeps, in order, the elements whose callback
result is truthy. -/
def arrayFilter {α : Type} (callback : α → JSValue) (l : List α) : List α :=
  l.filter (fun x => (callback x).truthy)

/-- `Array.prototype.join`. -/
def join (l : List String) (sep : String) : String := sep.intercalate l

/-- `Array.prototype.includes` on an array of strings. -/
def arrayIncludes (l : List String) (x : String) : Bool := decide (x ∈ l)

/-- `String.prototype.includes`: `needle` occurs as a contiguous part of `s`. -/
def includes (s needle : String) : Bool := decide (needle.data <:+: s.data)

/-- The comparison `a < b` of two strings: lexicographic, case-sensitive. -/
def stringLess (a b : String) : Bool := decide (a.data < b.data)

/-- `String.prototype.substring(start, stop)`: both indices are clamped to
`[0, length]` and swapped when `start > stop`. -/
def substring (s : String) (start stop : Int) : String :=
  let len : Int := s.length
  let a := min (max start 0) len
  let b := min (max stop 0) len
  let lo := (min a b).toNat
  let hi := (max a b).toNat
  String.mk ((s.data.take hi).drop lo)

/-- `Number.prototype.toString` (as used by template interpolation) on a
non-negative safe integer: its decimal digits. -/
def numberToString (n : Nat) : String := Nat.repr n

/-- A JavaScript number other than `NaN`: the double `mant * 2 ^ exp`, or an
infinity.  The sign of zero is not kept. -/
inductive JSNumber where
  | finite (mant : Int) (exp : Int)
  | posInf
  | negInf
  deriving DecidableEq, Repr

/-- Number of binary digits of a positive integer. -/
def bitLength (n : Nat) : Nat := (Nat.toDigits 2 n).length

/-- The quotient `a / b` rounded to the nearest integer, a tie going to the
even neighbour. -/
def roundHalfEven (a b : Nat) : Nat :=
  if 2 * (a % b) < b then a / b
  else if b < 2 * (a % b) then a / b + 1
  else a / b + (a / b) % 2

/-- The largest `k` with `2 ^ k ≤ n / d`, for positive `n` and `d`. -/
def floorLog2 (n d : Nat) : Int :=
  let t : Int := (bitLength n : Int) - (bitLength d : Int)
  if (if 0 ≤ t then d * 2 ^ t.toNat ≤ n else d ≤ n * 2 ^ (-t).toNat) then t else t - 1

/-- The Number value for the real number `± n / d` (`d` positive): the nearest
double, a tie going to the even significand; magnitudes that round to
`2 ^ 1024` or more give an infinity, and those below half the least
subnormal give zero. -/
def toNumber (negative : Bool) (n d : Nat) : JSNumber :=
  if n = 0 then .finite 0 0
  else
    let e : Int := max (floorLog2 n d - 52) (-1074)
    let m : Nat :=
      if 0 ≤ e then roundHalfEven n (d * 2 ^ e.toNat)
      else roundHalfEven (n * 2 ^ (-e).toNat) d
    let normal : Nat × Int := if m = 2 ^ 53 then (2 ^ 52, e + 1) else (m, e)
    if normal.1 = 0 then .finite 0 0
    else if 971 < normal.2 then (if negative then .negInf else .posInf)
    else .finite (if negative then -(normal.1 : Int) else (normal.1 : Int)) normal.2

/-- The Number value for an integer. -/
def JSNumber.ofInt (n : Int) : JSNumber := toNumber (decide (n < 0)) n.natAbs 1

/-- The test `v > 0`. -/
def JSNumber.isPositive : JSNumber → Bool
  | .finite mant _ => decide (0 < mant)
  | .posInf => true
  | .negInf => false

/-- The difference `x - y` of two numbers: the exact difference rounded to a
double; `none` (`NaN`) for the difference of two equal infinities. -/
def JSNumber.sub : JSNumber → JSNumber → Option JSNumber
  | .finite m1 e1, .finite m2 e2 =>
    let k : Int := min e1 e2
    let diff : Int := m1 * 2 ^ (e1 - k).toNat - m2 * 2 ^ (e2 - k).toNat
    some (if 0 ≤ k then toNumber (decide (diff < 0)) (diff.natAbs * 2 ^ k.toNat) 1
      else toNumber (decide (diff < 0)) diff.natAbs (2 ^ (-k).toNat))
  | .finite _ _, .posInf => some .negInf
  | .finite _ _, .negInf => some .posInf
  | .posInf, .finite _ _ => some .posInf
  | .posInf, .negInf => some .posInf
  | .posInf, .posInf => none
  | .negInf, .finite _ _ => some .negInf
  | .negInf, .posInf => some .negInf
  | .negInf, .negInf => none

/-- The characters `Number(text)` strips from both ends of the text: white
space and line terminators. -/
def isStrWhiteSpaceChar (c : Char) : Bool :=
  decide (c.toNat ∈ [9, 10, 11, 12, 13, 32, 160, 5760, 8232, 8233, 8239, 8287, 12288, 65279]) ||
    (decide (8192 ≤ c.toNat) && decide (c.toNat ≤ 8202))

/-- The text without the white space at its ends. -/
def trimWhiteSpace (cs : List Char) : List Char :=
  (cs.dropWhile isStrWhiteSpaceChar).rdropWhile isStrWhiteSpaceChar

/-- Value of a run of decimal digits, most significant first. -/
def digitsValue (cs : List Char) : Nat :=
  cs.foldl (fun acc c => 10 * acc + (c.toNat - 48)) 0

/-- Value of a digit in a radix up to sixteen; `none` for any other character. -/
def radixDigit (radix : Nat) (c : Char) : Option Nat :=
  let v : Option Nat :=
    if c.isDigit then some (c.toNat - 48)
    else if decide ('a'.toNat ≤ c.toNat) && decide (c.toNat ≤ 'f'.toNat) then some (c.toNat - 87)
    else if decide ('A'.toNat ≤ c.toNat) && decide (c.toNat ≤ 'F'.toNat) then some (c.toNat - 55)
    else none
  v.bind (fun k => if k < radix then some k else none)

/-- The value of a binary, octal or hexadecimal integer literal after its
prefix; `none` when a character is no digit of the radix or there is none. -/
def parseRadixDigits (radix : Nat) (cs : List Char) : Option Nat :=
  if cs.isEmpty then none
  else cs.foldl (fun acc c => acc.bind (fun a => (radixDigit radix c).map (fun k => radix * a + k)))
    (some 0)

/-- An unsigned decimal literal: digits with an optional fraction and an
optional exponent, at least one digit before the exponent.  The result
`(n, p)` stands for `n * 10 ^ p`. -/
def parseUnsignedDecimal (cs : List Char) : Option (Nat × Int) :=
  let whole := cs.takeWhile Char.isDigit
  let afterWhole := cs.dropWhile Char.isDigit
  let parts : List Char × List Char :=
    match afterWhole with
    | '.' :: r => (r.takeWhile Char.isDigit, r.dropWhile Char.isDigit)
    | r => ([], r)
  if whole.isEmpty && parts.1.isEmpty then none
  else
    match parts.2 with
    | [] => some (digitsValue (whole ++ parts.1), -(parts.1.length : Int))
    | c :: r =>
      if c = 'e' || c = 'E' then
        let signed : Bool × List Char :=
          match r with
          | '-' :: t => (true, t)
          | '+' :: t => (false, t)
          | t => (false, t)
        if signed.2.isEmpty || !signed.2.all Char.isDigit then none
        else
          some (digitsValue (whole ++ parts.1),
            (if signed.1 then -(digitsValue signed.2 : Int) else (digitsValue signed.2 : Int)) -
              (parts.1.length : Int))
      else none

/-- A decimal literal with its optional sign, or a signed `Infinity`. -/
def parseDecimal (cs : List Char) : Option JSNumber :=
  let signed : Bool × List Char :=
    match cs with
    | '-' :: r => (true, r)
    | '+' :: r => (false, r)
    | r => (false, r)
  if signed.2 = "Infinity".data then some (if signed.1 then .negInf else .posInf)
  else
    match parseUnsignedDecimal signed.2 with
    | none => none
    | some (n, p) =>
      some (if 0 ≤ p then toNumber signed.1 (n * 10 ^ p.toNat) 1
        else toNumber signed.1 n (10 ^ (-p).toNat))

/-- `Number(text)` (`StringToNumber`): white space is stripped from both ends;
the empty text is `0`; a text that is a binary, octal or hexadecimal integer
literal or a signed decimal literal is the double nearest to its value; any
other text is `NaN` (`none`).  For literals of more than twenty significant
digits the language leaves the last bit to the implementation; the nearest
double, which engines return, is taken. -/
def Number (s : String) : Option JSNumber :=
  let cs := trimWhiteSpace s.data
  if cs.isEmpty then some (.finite 0 0)
  else
    match cs with
    | '0' :: x :: ds =>
      if x = 'x' || x = 'X' then (parseRadixDigits 16 ds).map (fun n => toNumber false n 1)
      else if x = 'o' || x = 'O' then (parseRadixDigits 8 ds).map (fun n => toNumber false n 1)
      else if x = 'b' || x = 'B' then (parseRadixDigits 2 ds).map (fun n => toNumber false n 1)
      else parseDecimal cs
    | _ => parseDecimal cs

/-- The `SortCompare` step of `Array.prototype.sort`: a comparator result that
is `NaN` counts as `+0`. -/
def sortCompare {α : Type} (comparefn : α → α → Option JSNumber) (a b : α) : JSNumber :=
  (comparefn a b).getD (JSNumber.finite 0 0)

/-- The order `Array.prototype.sort` sorts by: `a` may stay before `b` unless
the comparator result is positive. -/
def sortLE {α : Type} (comparefn : α → α → Option JSNumber) (a b : α) : Prop :=
  (sortCompare comparefn a b).isPositive = false

instance sortLE.decidable {α : Type} (comparefn : α → α → Option JSNumber) :
    DecidableRel (sortLE comparefn) :=
  fun a b => inferInstanceAs (Decidable ((sortCompare comparefn a b).isPositive = false))

/-- `Array.prototype.sort(comparefn)`.  The language requires a stable sort and
fixes the result for every consistent comparator; insertion sort from the right
is one such sort. -/
def arraySort {α : Type} (comparefn : α → α → Option JSNumber) (l : List α) : List α :=
  l.insertionSort (sortLE comparefn)

/-- `Array.prototype.sort()` on strings with the default comparator: ascending
by the string order, case-sensitive. -/
def arraySortDefault (l : List String) : List String :=
  l.insertionSort (fun a b => ¬ stringLess b a)

/-- `Set.prototype.add` on an insertion-ordered set of strings. -/
def setAdd (s : List String) (x : String) : List String :=
  if x ∈ s then s else s ++ [x]

/-! ## Data model -/

/-- One entry of the `currencies` mapping of a record. -/
structure Currency where
  name : String
  symbol : Option String
  deriving DecidableEq, Repr

/-- A finite non-negative decimal, the form in which a JSON record carries a
number: the whole part and the digits after the point. -/
structure Decimal where
  whole : Nat
  frac : List (Fin 10)
  deriving DecidableEq, Repr

/-- Text of a decimal under template interpolation. -/
def Decimal.toString (d : Decimal) : String :=
  if d.frac.isEmpty then numberToString d.whole
  else numberToString d.whole ++ "." ++ String.mk (d.frac.map (fun k => Nat.digitChar k.val))

/-- A country record as delivered by the data provider.  Mappings are kept as
association lists in the order of the JSON object (the enumeration order of
`for … in`, `Object.keys`, `Object.values` and `Object.entries` for the
non-numeric keys the provider uses). -/
structure Country where
  /-- Field `name.common`. -/
  common : String
  /-- Field `name.official`. -/
  official : String
  cca2 : String
  capital : Option String
  region : String
  subregion : Option String
  continents : List String
  languages : Option (List (String × String))
  area : Decimal
  /-- A number holding a non-negative integer. -/
  population : Nat
  /-- The population is a safe integer: it lies in the range in which every
  integer is a double and is written by its decimal digits. -/
  populationSafe : population < 2 ^ 53 := by decide
  currencies : Option (List (String × Currency))
  /-- Field `flags.png`. -/
  flagPng : String
  /-- Field `maps.googleMaps`. -/
  googleMaps : String
  deriving DecidableEq, Repr

/-- `country[arr]` for the two property names `getArrayFilteredData` is called
with, already passed through `Object.values`: `none` when the property is
absent.  The `continents` array is always present. -/
def Country.values (country : Country) (arr : String) : Option (List String) :=
  if arr = "languages" then country.languages.map (fun m => m.map Prod.snd)
  else if arr = "continents" then some country.continents
  else none

/-- The element a card is built from, reduced to what the script reads back:
the text content of each child element (keyed by the child's `id` where it has
one) and the attributes set on the flag image and the map link. -/
structure Card where
  /-- Text of `h2#name`. -/
  name : String
  /-- Text of the `h3` element. -/
  officialName : String
  /-- Text of `p#capital`. -/
  capital : String
  /-- Text of `p#langs`. -/
  langs : String
  /-- Text of `p#continents`. -/
  continents : String
  /-- Text of `p#region`. -/
  region : String
  /-- Text of `p#area`. -/
  area : String
  /-- Text of `p#population`. -/
  population : String
  /-- Text of the currencies paragraph. -/
  currencies : String
  flagSrc : String
  flagAlt : String
  /-- Attribute `href` of `a#map`. -/
  mapHref : String
  deriving DecidableEq, Repr

/-- `card.querySelector("#" + id).textContent` for the four ids the sort
functions pass. -/
def Card.textContent (card : Card) (id : String) : String :=
  if id = "name" then card.name
  else if id = "capital" then card.capital
  else if id = "area" then card.area
  else if id = "population" then card.population
  else ""

/-- A radio input of the group `filter-by`. -/
structure RadioInput where
  id : String
  checked : Bool
  deriving DecidableEq, Repr

/-- A `select` element of `#filter-selections`: the texts of its options and
its `selectedIndex` (`-1` when nothing is selected). -/
structure SelectElement where
  id : String
  options : List String
  selectedIndex : Int
  hidden : Bool
  deriving DecidableEq, Repr

/-- Observable actions, recorded in order. -/
inductive Event where
  /-- `fetchData(query)` issued a request for `url + query`. -/
  | request (query : String)
  /-- `displayData` was called with this argument (`none` is `undefined`). -/
  | display (data : Option (List Country))
  deriving DecidableEq, Repr

/-- The part of the document the script works on, and the record of its
actions. -/
structure Dom where
  /-- Children of `#countries`, in document order. -/
  cardList : List Card
  /-- Value of `#search-bar`. -/
  searchBar : String
  /-- Value of the selected option of `#sort-by`. -/
  sortBy : String
  /-- Whether `#sort-descending` is checked. -/
  sortDescending : Bool
  /-- Whether `#filter-results` is checked. -/
  filterToggle : Bool
  /-- The inputs named `filter-by`, in document order. -/
  filterOptions : List RadioInput
  /-- Children of `#filter-selections`. -/
  filterSelections : List SelectElement
  /-- Property `hidden` of `#warning-message`. -/
  warnHidden : Bool
  /-- Actions so far, oldest first. -/
  trace : List Event
  deriving DecidableEq, Repr

/-- A response of the provider: its `ok` flag and its parsed body (`none` when
`response.json()` rejects). -/
structure Response where
  ok : Bool
  json : Option (List Country)

/-- What the script takes from its environment. -/
structure Host where
  /-- Outcome of `fetch(url + query)`, by query; `none` when the promise is
  rejected. -/
  fetch : String → Option Response
  toLowerCase : String → String

/-! ## The script -/

/-- The constant `url`. -/
def url : String := "https://restcountries.com/v3.1/"

/-- Function `fetchData(query)`: requests `url + query`, throws when the
response is not `ok`, and returns the parsed body. -/
def fetchData (host : Host) (query : String) (dom : Dom) :
    Except JSError (List Country) × Dom :=
  let dom := { dom with trace := dom.trace ++ [Event.request (url ++ query)] }
  match host.fetch (url ++ query) with
  | none => (.error (.rejected query), dom)
  | some response =>
    if !response.ok then (.error (.failedToFetch query), dom)
    else
      match response.json with
      | none => (.error (.rejected query), dom)
      | some data => (.ok data, dom)

/-- Function `getCard(country)`.  The branch for a record whose number of
continents is not one assigns to the `languages` element, as the source does
(there, `continents` is shadowed by the local array). -/
def getCard (country : Country) : Card :=
  let name := country.common ++ " - " ++ country.cca2
  let officialName := "Officially known as:" ++ country.official
  let capital := "Capital: " ++
    (match country.capital with
     | some c => if truthyString c then c else "N/A"
     | none => "N/A")
  let languages :=
    match country.languages with
    | some m =>
      if m.length = 1 then "Official Language: " ++ (m.map Prod.snd).headD "undefined"
      else "Official Languages: " ++ join (m.map Prod.snd) ", "
    | none => "Official Language: N/A"
  let shown : String × String :=
    if country.continents.length = 1 then
      (languages, "Continent: " ++ country.continents.headD "undefined")
    else
      ("Continents: " ++ join country.continents ", ", "")
  let region := "Region: " ++ (if truthyString country.region then country.region else "N/A")
  let region :=
    match country.subregion with
    | some sub =>
      if truthyString country.region && truthyString sub then region ++ " (" ++ sub ++ ")"
      else region
    | none => region
  let area := "Area: " ++ country.area.toString ++ " km²"
  let population := "Population: " ++ numberToString country.population
  let currencies :=
    match country.currencies with
    | some entries =>
      let currencyLabel := if entries.length = 1 then "Currency" else "Currencies"
      entries.foldl
        (fun _ kv => currencyLabel ++ ": " ++ kv.2.name ++ " (" ++ kv.1 ++ ") - " ++
          kv.2.symbol.getD "undefined")
        ""
    | none => "Currencies: N/A"
  { name := name
    officialName := officialName
    capital := capital
    langs := shown.1
    continents := shown.2
    region := region
    area := area
    population := population
    currencies := currencies
    flagSrc := country.flagPng
    flagAlt := "Flag of [object HTMLHeadingElement]"
    mapHref := country.googleMaps }

/-- The comparator of `getStringSortedList`. -/
def stringComparefn (host : Host) (id : String) (start stop : Int) (a b : Card) : Option JSNumber :=
  let strA := host.toLowerCase (a.textContent id)
  let strB := host.toLowerCase (b.textContent id)
  let strA := substring strA start (strA.length - stop)
  let strB := substring strB start (strB.length - stop)
  if stringLess strB strA then some (JSNumber.ofInt 1)
  else if stringLess strA strB then some (JSNumber.ofInt (-1))
  else some (JSNumber.ofInt 0)

/-- Function `getStringSortedList(list, id, start, end)`. -/
def getStringSortedList (host : Host) (list : List Card) (id : String) (start stop : Int) :
    List Card :=
  arraySort (stringComparefn host id start stop) list

/-- The comparator of `getNumberSortedList`: the difference of the two numbers
read from the texts, `NaN` when one of them is or both are the same infinity. -/
def numberComparefn (id : String) (start stop : Int) (a b : Card) : Option JSNumber :=
  let strA := a.textContent id
  let strB := b.textContent id
  let strA := substring strA start (strA.length - stop)
  let strB := substring strB start (strB.length - stop)
  match Number strA, Number strB with
  | some x, some y => x.sub y
  | _, _ => none

/-- Function `getNumberSortedList(list, id, start, end)`. -/
def getNumberSortedList (list : List Card) (id : String) (start stop : Int) : List Card :=
  arraySort (numberComparefn id start stop) list

/-- Function `getSortedList(list)`: sorts ascending by the field selected in
`#sort-by`, then reverses when `#sort-descending` is checked. -/
def getSortedList (host : Host) (dom : Dom) (list : List Card) : List Card :=
  let selection := dom.sortBy
  let list :=
    if selection = "name" then getStringSortedList host list "name" 0 5
    else if selection = "capital" then
      getStringSortedList host list "capital" ("Capital: ".length : Nat) 0
    else if selection = "area" then
      getNumberSortedList list "area" ("Area: ".length : Nat) 4
    else if selection = "population" then
      getNumberSortedList list "population" ("Population: ".length : Nat) 0
    else list
  if dom.sortDescending then list.reverse else list

/-- Expression `select.options[select.selectedIndex]`. -/
def SelectElement.selected (select : SelectElement) : Option String :=
  if select.selectedIndex < 0 then none else select.options.get? select.selectedIndex.toNat

/-- Expression `filterSelections.querySelector("#" + id + "-options")`. -/
def querySelectOptions (dom : Dom) (id : String) : Option SelectElement :=
  dom.filterSelections.find? (fun select => select.id == id ++ "-options")

/-- Function `getArrayFilteredData(data, id, arr)`. -/
def getArrayFilteredData (dom : Dom) (data : List Country) (id arr : String) :
    Except JSError (List Country) :=
  match querySelectOptions dom id with
  | none => .error (.typeError "select.options")
  | some select =>
    match select.selected with
    | none => .error (.typeError "select.options[select.selectedIndex].textContent")
    | some selectedOption =>
      .ok (arrayFilter
        (fun country =>
          match country.values arr with
          | none => JSValue.undefined
          | some values => JSValue.bool (arrayIncludes values selectedOption))
        data)

/-- Function `getRegionFilteredData(data)`. -/
def getRegionFilteredData (dom : Dom) (data : List Country) : Except JSError (List Country) :=
  match querySelectOptions dom "region" with
  | none => .error (.typeError "select.options")
  | some select =>
    match select.selected with
    | none => .error (.typeError "select.options[select.selectedIndex].textContent")
    | some selectedOption =>
      .ok (arrayFilter
        (fun country =>
          JSValue.bool (country.region == selectedOption || country.subregion == some selectedOption))
        data)

/-- Function `getFilteredData(data)`: the dimension is read from the id of the
first checked radio input; the result is `undefined` (`none`) when no input is
checked or its id names no dimension. -/
def getFilteredData (dom : Dom) (data : List Country) :
    Except JSError (Option (List Country)) :=
  let value : Option String :=
    (dom.filterOptions.find? (fun option => option.checked)).map
      (fun option => substring option.id ("filter-by-".length : Nat) option.id.length)
  if value = some "lang" then (getArrayFilteredData dom data "lang" "languages").map some
  else if value = some "continent" then
    (getArrayFilteredData dom data "continent" "continents").map some
  else if value = some "region" then (getRegionFilteredData dom data).map some
  else .ok none

/-- Function `displayData(data)`; `none` is the argument `undefined`. -/
def displayData (host : Host) (data : Option (List Country)) (dom : Dom) :
    Except JSError Unit × Dom :=
  let dom := { dom with trace := dom.trace ++ [Event.display data] }
  let dom := { dom with cardList := [] }
  match data with
  | none => (.error (.typeError "data.length"), dom)
  | some data =>
    if data.length > 0 then
      let dom := { dom with warnHidden := true }
      match (if dom.filterToggle then getFilteredData dom data else .ok (some data)) with
      | .error e => (.error e, dom)
      | .ok none => (.error (.typeError "data.length"), dom)
      | .ok (some data) =>
        if data.length > 0 then
          let list := data.map getCard
          let list := getSortedList host dom list
          (.ok (), { dom with cardList := dom.cardList ++ list })
        else (.ok (), { dom with warnHidden := false })
    else (.ok (), { dom with warnHidden := false })

/-- The narrowing step of `displaySearchResults` after a successful by-name
request.  The callback is a block body without `return`: it evaluates the test
and yields `undefined`. -/
def narrowToCommonName (host : Host) (searchBar : String) (data : List Country) :
    List Country :=
  let filteredData := arrayFilter
    (fun country =>
      let _test := includes (host.toLowerCase country.common) searchBar
      JSValue.undefined)
    data
  if filteredData.length > 0 then filteredData else data

/-- Function `displaySearchResults()`.  The `try`/`catch` nest leaves a value
in `data` and a completion; the `finally` block then calls `displayData(data)`,
and an exception thrown there replaces the pending one. -/
def displaySearchResults (host : Host) (dom : Dom) : Except JSError Unit × Dom :=
  if dom.searchBar = "" then
    match fetchData host "all" dom with
    | (.ok data, dom) => displayData host (some data) dom
    | (.error e, dom) => (.error e, dom)
  else
    let attempt : Except JSError Unit × Option (List Country) × Dom :=
      match fetchData host ("name/" ++ dom.searchBar) dom with
      | (.ok data, dom) => (.ok (), some (narrowToCommonName host dom.searchBar data), dom)
      | (.error _, dom) =>
      match fetchData host ("translation/" ++ dom.searchBar) dom with
      | (.ok data, dom) => (.ok (), some data, dom)
      | (.error _, dom) =>
      match fetchData host ("capital/" ++ dom.searchBar) dom with
      | (.ok data, dom) => (.ok (), some data, dom)
      | (.error _, dom) =>
      match fetchData host ("lang/" ++ dom.searchBar) dom with
      | (.ok data, dom) => (.ok (), some data, dom)
      | (.error _, dom) =>
      match fetchData host ("demonym/" ++ dom.searchBar) dom with
      | (.ok data, dom) => (.ok (), some data, dom)
      | (.error _, dom) =>
      match fetchData host ("region/" ++ dom.searchBar) dom with
      | (.ok data, dom) => (.ok (), some data, dom)
      | (.error _, dom) =>
      match fetchData host ("subregion/" ++ dom.searchBar) dom with
      | (.ok data, dom) => (.ok (), some data, dom)
      | (.error e, dom) => (.error e, none, dom)
    match displayData host attempt.2.1 attempt.2.2 with
    | (.ok (), dom) => (attempt.1, dom)
    | (.error e, dom) => (.error e, dom)

/-- The three arrays `sortedLangs`, `sortedContinents` and `sortedRegions` of
`initFilterOptions`. -/
structure FilterOptionLists where
  sortedLangs : List String
  sortedContinents : List String
  sortedRegions : List String
  deriving DecidableEq, Repr

/-- One pass of the loop of `initFilterOptions` over a record: the three sets
after the record. -/
def addCountryOptions (sets : List String × List String × List String) (country : Country) :
    List String × List String × List String :=
  let langOptions :=
    match country.languages with
    | some m => (m.map Prod.snd).foldl setAdd sets.1
    | none => sets.1
  let continentOptions := country.continents.foldl setAdd sets.2.1
  let regionOptions :=
    if truthyString country.region then setAdd sets.2.2 country.region else sets.2.2
  let regionOptions :=
    match country.subregion with
    | some sub => if truthyString sub then setAdd regionOptions sub else regionOptions
    | none => regionOptions
  (langOptions, continentOptions, regionOptions)

/-- Function `initFilterOptions(data)` up to the sorted arrays it hands to
`initFilterSelectOptions`. -/
def initFilterOptions (data : List Country) : FilterOptionLists :=
  let sets := data.foldl addCountryOptions ([], [], [])
  { sortedLangs := arraySortDefault sets.1
    sortedContinents := arraySortDefault sets.2.1
    sortedRegions := arraySortDefault sets.2.2 }

/-- Function `initFilterSelectOptions(id, arr)`: appends one option per entry
to the select element `#<id>-options`. -/
def initFilterSelectOptions (id : String) (arr : List String) (dom : Dom) : Dom :=
  { dom with
    filterSelections := dom.filterSelections.map (fun select =>
      if select.id == id ++ "-options" then { select with options := select.options ++ arr }
      else select) }

/-- The `change` listener of `#sort-by`: the displayed cards are sorted again
and put back. -/
def onSortByChange (host : Host) (dom : Dom) : Dom :=
  let cards := dom.cardList
  let cards := getSortedList host dom cards
  { dom with cardList := cards }

/-- The `change` listener of the `sort-order` inputs: the displayed cards are
reversed and put back. -/
def onSortOrderChange (dom : Dom) : Dom :=
  let cards := dom.cardList
  let cards := cards.reverse
  { dom with cardList := cards }

/-! ## Notions used in the statements -/

/-- The order a key induces. -/
def keyLE {α : Type} {κ : Type} [LinearOrder κ] (key : α → κ) (a b : α) : Prop :=
  key a ≤ key b

instance keyLE.decidable {α : Type} {κ : Type} [LinearOrder κ] (key : α → κ) :
    DecidableRel (keyLE key) :=
  fun a b => inferInstanceAs (Decidable (key a ≤ key b))

instance keyLE.isTotal {α : Type} {κ : Type} [LinearOrder κ] (key : α → κ) :
    IsTotal α (keyLE key) :=
  ⟨fun a b => le_total (key a) (key b)⟩

instance keyLE.isTrans {α : Type} {κ : Type} [LinearOrder κ] (key : α → κ) :
    IsTrans α (keyLE key) :=
  ⟨fun _ _ _ h1 h2 => le_trans h1 h2⟩

/-- The text `getStringSortedList` compares a card by. -/
def stringKey (host : Host) (id : String) (start stop : Int) (card : Card) : List Char :=
  (substring (host.toLowerCase (card.textContent id)) start
    ((host.toLowerCase (card.textContent id)).length - stop)).data

/-- The text `getNumberSortedList` reads the number of a card from. -/
def numberText (id : String) (start stop : Int) (card : Card) : String :=
  substring (card.textContent id) start ((card.textContent id).length - stop)

/-- A number is a double only if its exponent is not below that of the
subnormals. -/
def JSNumber.valid : JSNumber → Prop
  | .finite _ exp => -1074 ≤ exp
  | .posInf => True
  | .negInf => True

/-- The place of a number in the order of the extended rationals. -/
def JSNumber.toKey : JSNumber → WithBot (WithTop ℚ)
  | .finite mant exp => (((mant : ℚ) * (2 : ℚ) ^ exp : ℚ) : WithTop ℚ)
  | .posInf => ((⊤ : WithTop ℚ) : WithBot (WithTop ℚ))
  | .negInf => ⊥

/-- The number `getNumberSortedList` compares a card by, as an extended
rational (the least one where the text does not read as a number). -/
def numberKey (id : String) (start stop : Int) (card : Card) : WithBot (WithTop ℚ) :=
  ((Number (numberText id start stop card)).map JSNumber.toKey).getD ⊥

/-- The comparator `getSortedList` sorts with for each of the four fields. -/
def sortComparefn (host : Host) (selection : String) : Card → Card → Option JSNumber :=
  if selection = "name" then stringComparefn host "name" 0 5
  else if selection = "capital" then stringComparefn host "capital" ("Capital: ".length : Nat) 0
  else if selection = "area" then numberComparefn "area" ("Area: ".length : Nat) 4
  else numberComparefn "population" ("Population: ".length : Nat) 0

/-- The fields of `#sort-by`. -/
def sortFields : List String := ["name", "capital", "area", "population"]

instance populationLE.isTotal : IsTotal Country (fun a b => a.population ≤ b.population) :=
  ⟨fun a b => le_total a.population b.population⟩

instance populationLE.isTrans : IsTrans Country (fun a b => a.population ≤ b.population) :=
  ⟨fun _ _ _ h1 h2 => le_trans h1 h2⟩

/-- Two cards are tied when each may stay before the other. -/
def tied (comparefn : Card → Card → Option JSNumber) (a b : Card) : Prop :=
  sortLE comparefn a b ∧ sortLE comparefn b a

instance tied.decidable (comparefn : Card → Card → Option JSNumber) :
    DecidableRel (tied comparefn) :=
  fun a b => inferInstanceAs (Decidable (sortLE comparefn a b ∧ sortLE comparefn b a))

/-- The resource paths of the search strategies, in the order of the
`try`/`catch` nest. -/
def strategies : List String :=
  ["name/", "translation/", "capital/", "lang/", "demonym/", "region/", "subregion/"]

/-- The filter dimensions. -/
def dimensions : List String := ["lang", "continent", "region"]

/-- The page has `dimension` selected with value `v`: the first checked input
of the group `filter-by` is the one of the dimension, and `v` is the text of
the selected option of the select element of the dimension. -/
def dimensionSelected (dom : Dom) (dimension v : String) : Prop :=
  dimension ∈ dimensions ∧
  (dom.filterOptions.find? (fun option => option.checked)).map (fun option => option.id) =
    some ("filter-by-" ++ dimension) ∧
  (querySelectOptions dom dimension).bind SelectElement.selected = some v

instance dimensionSelected.decidable (dom : Dom) (dimension v : String) :
    Decidable (dimensionSelected dom dimension v) :=
  inferInstanceAs (Decidable (_ ∧ _ ∧ _))

/-- The predicate of a filter dimension, in the words of the specification:
for `lang` and `continent` the record has the mapping and its values include
`v`; for `region` the region of the record is `v` or its subregion is. -/
def keeps (dimension v : String) (country : Country) : Bool :=
  if dimension = "lang" then
    match country.languages with
    | some m => decide (v ∈ m.map Prod.snd)
    | none => false
  else if dimension = "continent" then decide (v ∈ country.continents)
  else decide (country.region = v ∨ country.subregion = some v)

/-! ## Sample hosts, pages and records -/

/-- A host whose `toLowerCase` maps the ASCII letters and whose requests all
fail. -/
def offlineHost : Host :=
  { fetch := fun _ => none
    toLowerCase := fun s => String.mk (s.data.map Char.toLower) }

/-- A page showing nothing, sorted by name ascending, filters off. -/
def blankDom : Dom :=
  { cardList := []
    searchBar := ""
    sortBy := "name"
    sortDescending := false
    filterToggle := false
    filterOptions := []
    filterSelections := []
    warnHidden := true
    trace := [] }

/-- The record for Canada of the sorting example. -/
def canada : Country :=
  { common := "Canada"
    official := "Canada"
    cca2 := "CA"
    capital := some "Ottawa"
    region := "Americas"
    subregion := some "North America"
    continents := ["North America"]
    languages := some [("eng", "English"), ("fra", "French")]
    area := { whole := 9984670, frac := [] }
    population := 38000000
    currencies := some [("CAD", { name := "Canadian dollar", symbol := some "$" })]
    flagPng := "https://flagcdn.com/w320/ca.png"
    googleMaps := "https://goo.gl/maps/jmEVLugreeqiZXxbA" }

/-- The record for Belgium of the sorting example. -/
def belgium : Country :=
  { common := "Belgium"
    official := "Kingdom of Belgium"
    cca2 := "BE"
    capital := some "Brussels"
    region := "Europe"
    subregion := some "Western Europe"
    continents := ["Europe"]
    languages := some [("deu", "German"), ("fra", "French"), ("nld", "Dutch")]
    area := { whole := 30528, frac := [] }
    population := 11500000
    currencies := some [("EUR", { name := "Euro", symbol := some "€" })]
    flagPng := "https://flagcdn.com/w320/be.png"
    googleMaps := "https://goo.gl/maps/UQQzat85TCtPRXAL8" }

/-- A record without a capital. -/
def antarctica : Country :=
  { common := "Antarctica"
    official := "Antarctica"
    cca2 := "AQ"
    capital := none
    region := "Antarctic"
    subregion := none
    continents := ["Antarctica"]
    languages := none
    area := { whole := 14000000, frac := [] }
    population := 1000
    currencies := none
    flagPng := "https://flagcdn.com/w320/aq.png"
    googleMaps := "https://goo.gl/maps/kyBuJriu4itiXank7" }

/-- Another record without a capital. -/
def macau : Country :=
  { common := "Macau"
    official := "Macao Special Administrative Region"
    cca2 := "MO"
    capital := none
    region := "Asia"
    subregion := some "Eastern Asia"
    continents := ["Asia"]
    languages := some [("por", "Portuguese"), ("zho", "Chinese")]
    area := { whole := 30, frac := [] }
    population := 649342
    currencies := some [("MOP", { name := "Macanese pataca", symbol := some "P" })]
    flagPng := "https://flagcdn.com/w320/mo.png"
    googleMaps := "https://goo.gl/maps/whymRdk3dZFfAAs4A" }

/-- A record with two official languages and two continents. -/
def azerbaijan : Country :=
  { common := "Azerbaijan"
    official := "Republic of Azerbaijan"
    cca2 := "AZ"
    capital := some "Baku"
    region := "Asia"
    subregion := some "Western Asia"
    continents := ["Europe", "Asia"]
    languages := some [("aze", "Azerbaijani"), ("rus", "Russian")]
    area := { whole := 86600, frac := [] }
    population := 10110116
    currencies := some [("AZN", { name := "Azerbaijani manat", symbol := some "₼" })]
    flagPng := "https://flagcdn.com/w320/az.png"
    googleMaps := "https://goo.gl/maps/az3Zz7ar2aoB9AUc6" }

/-- A record whose common name does not contain "united" but whose official
name does. -/
def tanzania : Country :=
  { common := "Tanzania"
    official := "United Republic of Tanzania"
    cca2 := "TZ"
    capital := some "Dodoma"
    region := "Africa"
    subregion := some "Eastern Africa"
    continents := ["Africa"]
    languages := some [("eng", "English"), ("swa", "Swahili")]
    area := { whole := 945087, frac := [] }
    population := 59734213
    currencies := some [("TZS", { name := "Tanzanian shilling", symbol := some "Sh" })]
    flagPng := "https://flagcdn.com/w320/tz.png"
    googleMaps := "https://goo.gl/maps/NWYMqZYXte4zGZ2Q8" }

/-- A record whose common name contains "united". -/
def unitedStates : Country :=
  { common := "United States"
    official := "United States of America"
    cca2 := "US"
    capital := some "Washington, D.C."
    region := "Americas"
    subregion := some "North America"
    continents := ["North America"]
    languages := some [("eng", "English")]
    area := { whole := 9372610, frac := [] }
    population := 329484123
    currencies := some [("USD", { name := "United States dollar", symbol := some "$" })]
    flagPng := "https://flagcdn.com/w320/us.png"
    googleMaps := "https://goo.gl/maps/e8M246zY4BSjkjAv6" }

/-- A host that answers the by-name request for "united" with Tanzania and the
United States and fails every other request. -/
def unitedHost : Host :=
  { fetch := fun address =>
      if address = url ++ "name/united" then
        some { ok := true, json := some [tanzania, unitedStates] }
      else none
    toLowerCase := fun s => String.mk (s.data.map Char.toLower) }

/-- A host that answers the by-capital request for "ottawa" with Canada and
fails every other request. -/
def ottawaHost : Host :=
  { fetch := fun address =>
      if address = url ++ "capital/ottawa" then some { ok := true, json := some [canada] }
      else none
    toLowerCase := fun s => String.mk (s.data.map Char.toLower) }

/-- A record of region Europe. -/
def europeanRecord : Country := belgium

/-- A record of region Asia whose subregion is Europe. -/
def asianRecord : Country :=
  { azerbaijan with region := "Asia", subregion := some "Europe" }

/-- A page with the filters on, the region dimension checked and "Europe"
selected. -/
def regionDom : Dom :=
  { blankDom with
    filterToggle := true
    filterOptions :=
      [{ id := "filter-by-lang", checked := false },
       { id := "filter-by-continent", checked := false },
       { id := "filter-by-region", checked := true }]
    filterSelections :=
      [{ id := "lang-options", options := ["English"], selectedIndex := 0, hidden := true },
       { id := "continent-options", options := ["Asia"], selectedIndex := 0, hidden := true },
       { id := "region-options", options := ["Asia", "Europe"], selectedIndex := 1,
         hidden := false }] }

/-- A record that carries the empty string as its subregion. -/
def unplacedRecord : Country :=
  { antarctica with
    region := "Polar"
    subregion := some "" }

/-! # Theorems -/

/-! ## Texts and numbers -/

theorem substring_append_right (p s : String) :
    substring (p ++ s) (p.length : Nat) (((p ++ s).length : Nat) - 0) = s := by
  unfold substring
  have h1 : (p ++ s).length = p.length + s.length := String.length_append p s
  have h2 : (p ++ s).data = p.data ++ s.data := String.data_append p s
  have hp : p.data.length = p.length := rfl
  simp only [h1, h2, sub_zero]
  have e1 : min (max ((p.length : Nat) : Int) 0) ((p.length + s.length : Nat) : Int) = (p.length : Nat) := by
    omega
  have e2 : min (max (((p.length + s.length : Nat) : Int)) 0) ((p.length + s.length : Nat) : Int)
      = ((p.length + s.length : Nat) : Int) := by omega
  rw [e1, e2]
  have e3 : (min ((p.length : Nat) : Int) ((p.length + s.length : Nat) : Int)).toNat = p.length := by
    omega
  have e4 : (max ((p.length : Nat) : Int) ((p.length + s.length : Nat) : Int)).toNat
      = p.length + s.length := by omega
  rw [e3, e4]
  have e5 : List.take (p.length + s.length) (p.data ++ s.data) = p.data ++ s.data := by
    apply List.take_of_length_le
    rw [List.length_append]
    exact le_refl _
  rw [e5, ← hp, List.drop_left]

theorem toDigitsCore_append (fuel n : Nat) (ds : List Char) :
    Nat.toDigitsCore 10 fuel n ds = Nat.toDigitsCore 10 fuel n [] ++ ds := by
  induction fuel generalizing n ds with
  | zero => simp [Nat.toDigitsCore]
  | succ k ih =>
    simp only [Nat.toDigitsCore]
    split
    · simp
    · rw [ih (n / 10) (_ :: ds), ih (n / 10) [_]]
      simp

theorem digitChar_isDigit (d : Nat) (h : d < 10) : (Nat.digitChar d).isDigit = true := by
  interval_cases d <;> decide

theorem digitChar_value (d : Nat) (h : d < 10) : (Nat.digitChar d).toNat - 48 = d := by
  interval_cases d <;> decide

theorem digitsValue_append (xs : List Char) (c : Char) :
    digitsValue (xs ++ [c]) = 10 * digitsValue xs + (c.toNat - 48) := by
  simp [digitsValue, List.foldl_append]

/-- The digits produced for `n` are decimal digits, there is at least one, and
they read back as `n`. -/
theorem toDigitsCore_spec (fuel n : Nat) (h : n < fuel) :
    (∀ c ∈ Nat.toDigitsCore 10 fuel n [], c.isDigit = true) ∧
    Nat.toDigitsCore 10 fuel n [] ≠ [] ∧
    digitsValue (Nat.toDigitsCore 10 fuel n []) = n := by
  induction fuel generalizing n with
  | zero => omega
  | succ k ih =>
    simp only [Nat.toDigitsCore]
    have hd : n % 10 < 10 := Nat.mod_lt _ (by decide)
    split
    · rename_i h0
      have hn : n = n % 10 := by omega
      refine ⟨?_, by simp, ?_⟩
      · intro c hc
        simp only [List.mem_singleton] at hc
        rw [hc]; exact digitChar_isDigit _ hd
      · have := digitsValue_append [] (Nat.digitChar (n % 10))
        simp only [List.nil_append] at this
        rw [this, digitChar_value _ hd]
        simp [digitsValue]; omega
    · rename_i h0
      have hk : n / 10 < k := by omega
      obtain ⟨a1, a2, a3⟩ := ih (n / 10) hk
      rw [toDigitsCore_append]
      refine ⟨?_, by simp, ?_⟩
      · intro c hc
        rcases List.mem_append.1 hc with hc | hc
        · exact a1 c hc
        · simp only [List.mem_singleton] at hc
          rw [hc]; exact digitChar_isDigit _ hd
      · rw [digitsValue_append, a3, digitChar_value _ hd]
        omega

theorem takeWhile_all {α : Type} (p : α → Bool) (l : List α) (h : ∀ c ∈ l, p c = true) :
    l.takeWhile p = l ∧ l.dropWhile p = [] := by
  induction l with
  | nil => simp
  | cons a l ih =>
    have ha := h a (List.mem_cons_self a l)
    have hl := ih (fun c hc => h c (List.mem_cons_of_mem a hc))
    simp [List.takeWhile, List.dropWhile, ha, hl]

theorem toDigitsCore_append_base (b fuel n : Nat) (ds : List Char) :
    Nat.toDigitsCore b fuel n ds = Nat.toDigitsCore b fuel n [] ++ ds := by
  induction fuel generalizing n ds with
  | zero => simp [Nat.toDigitsCore]
  | succ k ih =>
    simp only [Nat.toDigitsCore]
    split
    · simp
    · rw [ih (n / b) (_ :: ds), ih (n / b) [_]]
      simp

theorem toDigitsCore_two_length (fuel n : Nat) (h : n < fuel) (hn : n ≠ 0) :
    2 ^ ((Nat.toDigitsCore 2 fuel n []).length - 1) ≤ n ∧
    n < 2 ^ (Nat.toDigitsCore 2 fuel n []).length ∧
    1 ≤ (Nat.toDigitsCore 2 fuel n []).length := by
  induction fuel generalizing n with
  | zero => omega
  | succ k ih =>
    simp only [Nat.toDigitsCore]
    split
    · rename_i h0
      have h1 : n = 1 := by omega
      subst h1
      simp
    · rename_i h0
      have hk : n / 2 < k := by omega
      obtain ⟨a1, a2, a3⟩ := ih (n / 2) hk h0
      rw [toDigitsCore_append_base]
      simp only [List.length_append, List.length_singleton, Nat.add_sub_cancel]
      refine ⟨?_, ?_, by omega⟩
      · have e : (Nat.toDigitsCore 2 k (n / 2) []).length =
            ((Nat.toDigitsCore 2 k (n / 2) []).length - 1) + 1 := by omega
        rw [e, pow_succ]
        omega
      · rw [pow_succ]
        omega

/-- The binary length of a positive integer brackets it between two powers of
two. -/
theorem bitLength_spec (n : Nat) (hn : n ≠ 0) :
    2 ^ (bitLength n - 1) ≤ n ∧ n < 2 ^ bitLength n ∧ 1 ≤ bitLength n :=
  toDigitsCore_two_length (n + 1) n (Nat.lt_succ_self n) hn

theorem roundHalfEven_one (a : Nat) : roundHalfEven a 1 = a := by
  simp [roundHalfEven, Nat.mod_one]

theorem roundHalfEven_pos (a b : Nat) (hb : 0 < b) (h : b ≤ a) : 1 ≤ roundHalfEven a b := by
  have hq : 1 ≤ a / b := Nat.div_pos h hb
  unfold roundHalfEven
  split_ifs <;> omega

theorem floorLog2_le (n d : Nat) : floorLog2 n d ≤ (bitLength n : Int) - (bitLength d : Int) := by
  unfold floorLog2
  simp only
  split <;> omega

theorem toNumber_valid (negative : Bool) (n d : Nat) : (toNumber negative n d).valid := by
  unfold toNumber
  split
  · simp [JSNumber.valid]
  · simp only
    have he : (-1074 : Int) ≤ max (floorLog2 n d - 52) (-1074) := le_max_right _ _
    generalize (if 0 ≤ max (floorLog2 n d - 52) (-1074) then
      roundHalfEven n (d * 2 ^ (max (floorLog2 n d - 52) (-1074)).toNat)
      else roundHalfEven (n * 2 ^ (-(max (floorLog2 n d - 52) (-1074))).toNat) d) = m
    generalize max (floorLog2 n d - 52) (-1074) = e at he
    by_cases h53 : m = 2 ^ 53
    · simp only [h53, if_true]
      split_ifs <;> simp only [JSNumber.valid] <;> omega
    · simp only [h53, if_false]
      split_ifs <;> simp only [JSNumber.valid] <;> omega

/-- A magnitude of at least the least subnormal rounds to a number of the same
sign. -/
theorem toNumber_isPositive (negative : Bool) (n d j : Nat) (hn : n ≠ 0) (hd : d ≠ 0)
    (hj : j ≤ 1074) (h : d ≤ n * 2 ^ j) : (toNumber negative n d).isPositive = !negative := by
  obtain ⟨n1, _, n3⟩ := bitLength_spec n hn
  obtain ⟨_, d2, d3⟩ := bitLength_spec d hd
  have hfl := floorLog2_le n d
  have hm : 1 ≤ (if 0 ≤ max (floorLog2 n d - 52) (-1074) then
      roundHalfEven n (d * 2 ^ (max (floorLog2 n d - 52) (-1074)).toNat)
      else roundHalfEven (n * 2 ^ (-(max (floorLog2 n d - 52) (-1074))).toNat) d) := by
    split
    · rename_i h0
      have he : max (floorLog2 n d - 52) (-1074) = floorLog2 n d - 52 := by
        rcases max_choice (floorLog2 n d - 52) (-1074) with hc | hc
        · exact hc
        · rw [hc] at h0; omega
      rw [he] at h0 ⊢
      apply roundHalfEven_pos
      · positivity
      · have hE : bitLength d + (floorLog2 n d - 52).toNat ≤ bitLength n - 1 := by omega
        calc d * 2 ^ (floorLog2 n d - 52).toNat
            ≤ 2 ^ bitLength d * 2 ^ (floorLog2 n d - 52).toNat :=
              Nat.mul_le_mul_right _ (Nat.le_of_lt d2)
          _ = 2 ^ (bitLength d + (floorLog2 n d - 52).toNat) := (pow_add 2 _ _).symm
          _ ≤ 2 ^ (bitLength n - 1) := Nat.pow_le_pow_right (by norm_num) hE
          _ ≤ n := n1
    · rename_i h0
      apply roundHalfEven_pos _ _ (Nat.pos_of_ne_zero hd)
      rcases max_choice (floorLog2 n d - 52) (-1074) with hc | hc
      · rw [hc]
        have hle : (-1074 : Int) ≤ floorLog2 n d - 52 := by
          have := le_max_right (floorLog2 n d - 52) (-1074)
          rw [hc] at this; exact this
        have hE : bitLength d ≤ bitLength n - 1 + (-(floorLog2 n d - 52)).toNat := by omega
        calc d ≤ 2 ^ bitLength d := Nat.le_of_lt d2
          _ ≤ 2 ^ (bitLength n - 1 + (-(floorLog2 n d - 52)).toNat) :=
              Nat.pow_le_pow_right (by norm_num) hE
          _ = 2 ^ (bitLength n - 1) * 2 ^ (-(floorLog2 n d - 52)).toNat := pow_add 2 _ _
          _ ≤ n * 2 ^ (-(floorLog2 n d - 52)).toNat := Nat.mul_le_mul_right _ n1
      · rw [hc]
        have hjl : j ≤ (-(-1074 : Int)).toNat := by omega
        exact le_trans h (Nat.mul_le_mul_left n (Nat.pow_le_pow_right (by norm_num) hjl))
  unfold toNumber
  rw [if_neg hn]
  simp only
  generalize (if 0 ≤ max (floorLog2 n d - 52) (-1074) then
      roundHalfEven n (d * 2 ^ (max (floorLog2 n d - 52) (-1074)).toNat)
      else roundHalfEven (n * 2 ^ (-(max (floorLog2 n d - 52) (-1074))).toNat) d) = m at hm
  by_cases h53 : m = 2 ^ 53
  · simp only [h53, if_true]
    rw [if_neg (by norm_num)]
    split
    · cases negative <;> simp [JSNumber.isPositive]
    · cases negative <;> simp [JSNumber.isPositive]
  · simp only [h53, if_false]
    rw [if_neg (by omega)]
    split
    · cases negative <;> simp [JSNumber.isPositive]
    · cases negative
      · simp only [JSNumber.isPositive, Bool.false_eq_true, if_false, Bool.not_false,
          decide_eq_true_eq]
        omega
      · simp only [JSNumber.isPositive, if_true, Bool.not_true, decide_eq_false_iff_not]
        omega

theorem bitLength_one : bitLength 1 = 1 := by decide

/-- A non-negative integer below `2 ^ 53` is a double. -/
theorem toNumber_nat_exact (n : Nat) (h : n < 2 ^ 53) :
    (toNumber false n 1).toKey = (((n : ℚ) : WithTop ℚ) : WithBot (WithTop ℚ)) := by
  by_cases hn : n = 0
  · subst hn
    simp [toNumber, JSNumber.toKey]
  obtain ⟨n1, n2, n3⟩ := bitLength_spec n hn
  have hB : bitLength n ≤ 53 := by
    by_contra hc
    have : 2 ^ 53 ≤ 2 ^ (bitLength n - 1) := Nat.pow_le_pow_right (by norm_num) (by omega)
    omega
  have hfl : floorLog2 n 1 = (bitLength n : Int) - 1 := by
    unfold floorLog2
    simp only [bitLength_one]
    have ht : (0 : Int) ≤ (bitLength n : Int) - ((1 : Nat) : Int) := by omega
    have hT : ((bitLength n : Int) - ((1 : Nat) : Int)).toNat = bitLength n - 1 := by omega
    have hc : (if 0 ≤ (bitLength n : Int) - ((1 : Nat) : Int) then
        1 * 2 ^ ((bitLength n : Int) - ((1 : Nat) : Int)).toNat ≤ n
        else 1 ≤ n * 2 ^ (-((bitLength n : Int) - ((1 : Nat) : Int))).toNat) := by
      rw [if_pos ht, hT]
      simpa using n1
    rw [if_pos hc]
    rfl
  have he : max (floorLog2 n 1 - 52) (-1074) = (bitLength n : Int) - 53 := by
    rw [hfl, max_eq_left (by omega)]
    ring
  have hlt : n * 2 ^ (53 - bitLength n) < 2 ^ 53 := by
    calc n * 2 ^ (53 - bitLength n) < 2 ^ bitLength n * 2 ^ (53 - bitLength n) :=
          Nat.mul_lt_mul_of_pos_right n2 (by positivity)
      _ = 2 ^ (bitLength n + (53 - bitLength n)) := (pow_add 2 _ _).symm
      _ = 2 ^ 53 := by congr 1; omega
  have hpos : n * 2 ^ (53 - bitLength n) ≠ 0 := by positivity
  have hm : (if 0 ≤ (bitLength n : Int) - 53 then
      roundHalfEven n (1 * 2 ^ ((bitLength n : Int) - 53).toNat)
      else roundHalfEven (n * 2 ^ (-((bitLength n : Int) - 53)).toNat) 1) =
      n * 2 ^ (53 - bitLength n) := by
    split
    · rename_i h0
      have e1 : ((bitLength n : Int) - 53).toNat = 0 := by omega
      have e2 : 53 - bitLength n = 0 := by omega
      rw [e1, e2]
      simp [roundHalfEven_one]
    · rename_i h0
      have e1 : (-((bitLength n : Int) - 53)).toNat = 53 - bitLength n := by omega
      rw [e1, roundHalfEven_one]
  unfold toNumber
  rw [if_neg hn]
  simp only [he, hm]
  rw [if_neg (Nat.ne_of_lt hlt)]
  simp only
  rw [if_neg hpos, if_neg (by omega)]
  simp only [JSNumber.toKey, Bool.false_eq_true, if_false]
  congr 2
  have e3 : ((bitLength n : Int) - 53) = -((53 - bitLength n : Nat) : Int) := by omega
  rw [e3, zpow_neg, zpow_natCast]
  push_cast
  field_simp

theorem finite_sub_finite (m1 e1 m2 e2 : Int) (h1 : -1074 ≤ e1) (h2 : -1074 ≤ e2) :
    (((JSNumber.finite m1 e1).sub (JSNumber.finite m2 e2)).getD (JSNumber.finite 0 0)).isPositive
      = true ↔ (m2 : ℚ) * (2 : ℚ) ^ e2 < (m1 : ℚ) * (2 : ℚ) ^ e1 := by
  have hk1 : min e1 e2 ≤ e1 := min_le_left _ _
  have hk2 : min e1 e2 ≤ e2 := min_le_right _ _
  have hk : -1074 ≤ min e1 e2 := le_min h1 h2
  generalize hkk : min e1 e2 = k at hk1 hk2 hk
  have two_pos : (0 : ℚ) < 2 := by norm_num
  have v1 : (m1 : ℚ) * (2 : ℚ) ^ e1 = ((m1 * 2 ^ (e1 - k).toNat : Int) : ℚ) * (2 : ℚ) ^ k := by
    have : e1 = ((e1 - k).toNat : Int) + k := by omega
    conv_lhs => rw [this, zpow_add₀ two_pos.ne', zpow_natCast]
    push_cast
    ring
  have v2 : (m2 : ℚ) * (2 : ℚ) ^ e2 = ((m2 * 2 ^ (e2 - k).toNat : Int) : ℚ) * (2 : ℚ) ^ k := by
    have : e2 = ((e2 - k).toNat : Int) + k := by omega
    conv_lhs => rw [this, zpow_add₀ two_pos.ne', zpow_natCast]
    push_cast
    ring
  have kpos : (0 : ℚ) < (2 : ℚ) ^ k := zpow_pos two_pos k
  rw [v1, v2, mul_lt_mul_right kpos, Int.cast_lt]
  simp only [JSNumber.sub, hkk, Option.getD_some]
  generalize m1 * 2 ^ (e1 - k).toNat = a
  generalize m2 * 2 ^ (e2 - k).toNat = b
  by_cases hz : a - b = 0
  · have hab : ¬ b < a := by omega
    simp [hz, toNumber, JSNumber.isPositive, hab]
  · have hne : (a - b).natAbs ≠ 0 := by omega
    have hpos : ∀ neg : Bool, (if 0 ≤ k then toNumber neg ((a - b).natAbs * 2 ^ k.toNat) 1
        else toNumber neg (a - b).natAbs (2 ^ (-k).toNat)).isPositive = !neg := by
      intro neg
      split
      · apply toNumber_isPositive _ _ 1 0
        · positivity
        · norm_num
        · norm_num
        · have hpos : 0 < (a - b).natAbs * 2 ^ k.toNat * 2 ^ 0 := by positivity
          exact hpos
      · apply toNumber_isPositive _ _ _ (-k).toNat hne
        · positivity
        · omega
        · exact Nat.le_mul_of_pos_left _ (Nat.pos_of_ne_zero hne)
    rw [hpos]
    simp only [Bool.not_eq_true', decide_eq_false_iff_not]
    omega

/-- The sign test on a difference is the comparison of the two numbers. -/
theorem sub_isPositive (x y : JSNumber) (hx : x.valid) (hy : y.valid) :
    ((x.sub y).getD (JSNumber.finite 0 0)).isPositive = true ↔ y.toKey < x.toKey := by
  cases x with
  | finite m1 e1 =>
    cases y with
    | finite m2 e2 =>
      rw [finite_sub_finite m1 e1 m2 e2 hx hy]
      simp only [JSNumber.toKey]
      exact (WithBot.coe_lt_coe.trans WithTop.coe_lt_coe).symm
    | posInf =>
      simp only [JSNumber.sub, JSNumber.toKey, JSNumber.isPositive, Option.getD_some]
      constructor
      · intro h; exact absurd h (by decide)
      · intro h; exact absurd (WithBot.coe_lt_coe.1 h) not_top_lt
    | negInf =>
      simp only [JSNumber.sub, JSNumber.toKey, JSNumber.isPositive, Option.getD_some]
      exact ⟨fun _ => WithBot.bot_lt_coe _, fun _ => trivial⟩
  | posInf =>
    cases y with
    | finite m2 e2 =>
      simp only [JSNumber.sub, JSNumber.toKey, JSNumber.isPositive, Option.getD_some]
      exact ⟨fun _ => WithBot.coe_lt_coe.2 (WithTop.coe_lt_top _), fun _ => trivial⟩
    | posInf =>
      simp only [JSNumber.sub, JSNumber.toKey, JSNumber.isPositive, Option.getD_none]
      constructor
      · intro h; exact absurd h (by decide)
      · intro h; exact absurd h (lt_irrefl _)
    | negInf =>
      simp only [JSNumber.sub, JSNumber.toKey, JSNumber.isPositive, Option.getD_some]
      exact ⟨fun _ => WithBot.bot_lt_coe _, fun _ => trivial⟩
  | negInf =>
    cases y with
    | finite m2 e2 =>
      simp only [JSNumber.sub, JSNumber.toKey, JSNumber.isPositive, Option.getD_some]
      constructor
      · intro h; exact absurd h (by decide)
      · intro h; exact absurd h (not_lt_bot)
    | posInf =>
      simp only [JSNumber.sub, JSNumber.toKey, JSNumber.isPositive, Option.getD_some]
      constructor
      · intro h; exact absurd h (by decide)
      · intro h; exact absurd h (not_lt_bot)
    | negInf =>
      simp only [JSNumber.sub, JSNumber.toKey, JSNumber.isPositive, Option.getD_none]
      constructor
      · intro h; exact absurd h (by decide)
      · intro h; exact absurd h (lt_irrefl _)

theorem isDigit_bounds (c : Char) (h : c.isDigit = true) : 48 ≤ c.toNat ∧ c.toNat ≤ 57 := by
  simp only [Char.isDigit, Bool.and_eq_true, decide_eq_true_eq] at h
  exact ⟨h.1, h.2⟩

theorem not_whiteSpace_of_isDigit (c : Char) (h : c.isDigit = true) :
    isStrWhiteSpaceChar c = false := by
  obtain ⟨h1, h2⟩ := isDigit_bounds c h
  unfold isStrWhiteSpaceChar
  simp only [List.mem_cons, List.mem_singleton, List.not_mem_nil, or_false, Bool.or_eq_false_iff,
    decide_eq_false_iff_not, Bool.and_eq_false_iff]
  constructor
  · omega
  · left; omega

theorem trimWhiteSpace_digits (cs : List Char) (h : ∀ c ∈ cs, c.isDigit = true) :
    trimWhiteSpace cs = cs := by
  have h1 : cs.dropWhile isStrWhiteSpaceChar = cs := by
    rw [List.dropWhile_eq_self_iff]
    intro hl
    rw [not_whiteSpace_of_isDigit _ (h _ (List.get_mem cs 0 hl))]
    simp
  unfold trimWhiteSpace
  rw [h1, List.rdropWhile_eq_self_iff]
  intro hl
  rw [not_whiteSpace_of_isDigit _ (h _ (List.getLast_mem hl))]
  simp

theorem parseUnsignedDecimal_digits (cs : List Char) (h : ∀ c ∈ cs, c.isDigit = true)
    (hne : cs ≠ []) : parseUnsignedDecimal cs = some (digitsValue cs, 0) := by
  obtain ⟨t1, t2⟩ := takeWhile_all Char.isDigit cs h
  unfold parseUnsignedDecimal
  simp only [t1, t2]
  have : cs.isEmpty = false := by
    cases cs with
    | nil => exact absurd rfl hne
    | cons a l => rfl
  simp [this]

theorem parseDecimal_digits (cs : List Char) (h : ∀ c ∈ cs, c.isDigit = true) (hne : cs ≠ []) :
    parseDecimal cs = some (toNumber false (digitsValue cs) 1) := by
  cases cs with
  | nil => exact absurd rfl hne
  | cons c rest =>
    have hc := h c (List.mem_cons_self c rest)
    have hminus : c ≠ '-' := by rintro rfl; revert hc; decide
    have hplus : c ≠ '+' := by rintro rfl; revert hc; decide
    have hI : c ≠ 'I' := by rintro rfl; revert hc; decide
    have hs : (match c :: rest with
        | '-' :: r => (true, r)
        | '+' :: r => (false, r)
        | r => (false, r)) = (false, c :: rest) := by
      split
      · rename_i heq; simp at heq; exact absurd heq.1 hminus
      · rename_i heq; simp at heq; exact absurd heq.1 hplus
      · rfl
    have hinf : c :: rest ≠ "Infinity".data := by
      intro heq
      have : c = 'I' := by
        have := congrArg List.head? heq
        simpa using this
      exact hI this
    unfold parseDecimal
    simp only [hs, hinf, if_false, parseUnsignedDecimal_digits (c :: rest) h hne]
    simp

/-- A run of decimal digits reads as the Number value for the integer it
writes. -/
theorem Number_digits (cs : List Char) (h : ∀ c ∈ cs, c.isDigit = true) (hne : cs ≠ []) :
    Number (String.mk cs) = some (toNumber false (digitsValue cs) 1) := by
  unfold Number
  simp only [trimWhiteSpace_digits cs h]
  have he : cs.isEmpty = false := by
    cases cs with
    | nil => exact absurd rfl hne
    | cons a l => rfl
  simp only [he, Bool.false_eq_true, if_false]
  split
  · rename_i x ds
    have hx : x.isDigit = true := h x (by simp)
    have n1 : x ≠ 'x' := by rintro rfl; revert hx; decide
    have n2 : x ≠ 'X' := by rintro rfl; revert hx; decide
    have n3 : x ≠ 'o' := by rintro rfl; revert hx; decide
    have n4 : x ≠ 'O' := by rintro rfl; revert hx; decide
    have n5 : x ≠ 'b' := by rintro rfl; revert hx; decide
    have n6 : x ≠ 'B' := by rintro rfl; revert hx; decide
    simp only [n1, n2, n3, n4, n5, n6, decide_False, Bool.or_self, Bool.false_eq_true, if_false]
    exact parseDecimal_digits _ h hne
  · exact parseDecimal_digits _ h hne

/-- The text of a non-negative integer reads back as the Number value for that
integer. -/
theorem Number_numberToString (n : Nat) :
    Number (numberToString n) = some (JSNumber.ofInt n) := by
  obtain ⟨a1, a2, a3⟩ := toDigitsCore_spec (n + 1) n (Nat.lt_succ_self n)
  have hd : numberToString n = String.mk (Nat.toDigitsCore 10 (n + 1) n []) := rfl
  have hneg : decide ((n : Int) < 0) = false := decide_eq_false (by omega)
  rw [hd, Number_digits _ a1 a2, a3]
  simp [JSNumber.ofInt, hneg]

/-- Every number `Number` returns is a double. -/
theorem Number_valid (s : String) (x : JSNumber) (h : Number s = some x) : x.valid := by
  have radix : ∀ (r : Nat) (ds : List Char),
      (parseRadixDigits r ds).map (fun n => toNumber false n 1) = some x → x.valid := by
    intro r ds hr
    cases hp : parseRadixDigits r ds with
    | none => rw [hp] at hr; simp at hr
    | some n =>
      rw [hp] at hr
      simp only [Option.map_some', Option.some.injEq] at hr
      rw [← hr]
      exact toNumber_valid _ _ _
  have decimal : ∀ cs : List Char, parseDecimal cs = some x → x.valid := by
    intro cs hc
    unfold parseDecimal at hc
    simp only at hc
    split at hc
    · simp only [Option.some.injEq] at hc
      rw [← hc]
      split <;> simp [JSNumber.valid]
    · split at hc
      · simp at hc
      · simp only [Option.some.injEq] at hc
        rw [← hc]
        split <;> exact toNumber_valid _ _ _
  unfold Number at h
  simp only at h
  split at h
  · simp only [Option.some.injEq] at h
    rw [← h]
    simp [JSNumber.valid]
  · split at h
    · split at h
      · exact radix _ _ h
      · split at h
        · exact radix _ _ h
        · split at h
          · exact radix _ _ h
          · exact decimal _ h
    · exact decimal _ h

/-! ## Sorting -/

theorem orderedInsert_congr {α : Type} (r s : α → α → Prop) [DecidableRel r] [DecidableRel s] (a : α)
    (l : List α) (h : ∀ b ∈ l, r a b ↔ s a b) : l.orderedInsert r a = l.orderedInsert s a := by
  induction l with
  | nil => rfl
  | cons b l ih =>
    simp only [List.orderedInsert]
    have hb := h b (List.mem_cons_self b l)
    by_cases hr : r a b
    · simp [hr, hb.1 hr]
    · have hs : ¬ s a b := fun hs => hr (hb.2 hs)
      simp [hr, hs, ih (fun c hc => h c (List.mem_cons_of_mem b hc))]

/-- Insertion sort depends on the order only through the pairs of the list. -/
theorem insertionSort_congr {α : Type} (r s : α → α → Prop) [DecidableRel r] [DecidableRel s]
    (l : List α) (h : ∀ a ∈ l, ∀ b ∈ l, r a b ↔ s a b) :
    l.insertionSort r = l.insertionSort s := by
  induction l with
  | nil => rfl
  | cons a l ih =>
    simp only [List.insertionSort]
    rw [ih (fun x hx y hy => h x (List.mem_cons_of_mem a hx) y (List.mem_cons_of_mem a hy))]
    apply orderedInsert_congr
    intro b hb
    exact h a (List.mem_cons_self a l) b (List.mem_cons_of_mem a ((List.mem_insertionSort s).1 hb))

/-- Sorting by a comparator that agrees with a key order on the list is
sorting by that key. -/
theorem arraySort_eq_key {α : Type} {κ : Type} [LinearOrder κ] (comparefn : α → α → Option JSNumber)
    (key : α → κ) (l : List α)
    (h : ∀ a ∈ l, ∀ b ∈ l, sortLE comparefn a b ↔ key a ≤ key b) :
    arraySort comparefn l = l.insertionSort (keyLE key) :=
  insertionSort_congr (sortLE comparefn) (keyLE key) l h

theorem arraySort_perm {α : Type} (comparefn : α → α → Option JSNumber) (l : List α) :
    (arraySort comparefn l).Perm l :=
  List.perm_insertionSort _ l

theorem mem_arraySort {α : Type} (comparefn : α → α → Option JSNumber) (l : List α) (x : α) :
    x ∈ arraySort comparefn l ↔ x ∈ l :=
  List.mem_insertionSort _

theorem head?_orderedInsert {α : Type} (r : α → α → Prop) [DecidableRel r] (a : α) (l : List α) :
    ∀ y ∈ (l.orderedInsert r a).head?, y = a ∨ y ∈ l.head? := by
  intro y hy
  cases l with
  | nil =>
    simp only [List.orderedInsert, List.head?_cons, Option.mem_def, Option.some.injEq] at hy
    exact Or.inl hy.symm
  | cons b l =>
    simp only [List.orderedInsert] at hy
    split at hy
    · simp only [List.head?_cons, Option.mem_def, Option.some.injEq] at hy
      exact Or.inl hy.symm
    · exact Or.inr hy

/-- Under a total relation insertion keeps neighbours related. -/
theorem chain'_orderedInsert {α : Type} (r : α → α → Prop) [DecidableRel r]
    (total : ∀ a b, r a b ∨ r b a) (a : α) (l : List α) (h : l.Chain' r) :
    (l.orderedInsert r a).Chain' r := by
  induction l with
  | nil => exact List.chain'_singleton a
  | cons b l ih =>
    simp only [List.orderedInsert]
    split
    · rename_i hab
      exact List.Chain'.cons hab h
    · rename_i hab
      have hba : r b a := (total a b).resolve_left hab
      rw [List.chain'_cons']
      refine ⟨?_, ih h.tail⟩
      intro y hy
      rcases head?_orderedInsert r a l y hy with rfl | hy2
      · exact hba
      · exact (List.chain'_cons'.1 h).1 y hy2

theorem chain'_insertionSort {α : Type} (r : α → α → Prop) [DecidableRel r]
    (total : ∀ a b, r a b ∨ r b a) (l : List α) : (l.insertionSort r).Chain' r := by
  induction l with
  | nil => exact List.chain'_nil
  | cons a l ih => exact chain'_orderedInsert r total a _ ih

theorem insertionSort_of_chain' {α : Type} (r : α → α → Prop) [DecidableRel r] (l : List α)
    (h : l.Chain' r) : l.insertionSort r = l := by
  induction l with
  | nil => rfl
  | cons a l ih =>
    simp only [List.insertionSort]
    rw [ih h.tail]
    cases l with
    | nil => rfl
    | cons b l =>
      have hab : r a b := (List.chain'_cons.1 h).1
      simp [List.orderedInsert, hab]

/-- Sorting a sorted array again changes nothing, whenever every two elements
are comparable one way or the other. -/
theorem arraySort_idem {α : Type} (comparefn : α → α → Option JSNumber)
    (total : ∀ a b, sortLE comparefn a b ∨ sortLE comparefn b a) (l : List α) :
    arraySort comparefn (arraySort comparefn l) = arraySort comparefn l :=
  insertionSort_of_chain' _ _ (chain'_insertionSort _ total l)

theorem forall_of_pairwise {α : Type} (R : α → α → Prop) (P : α → Prop)
    (hRP : ∀ a b, R a b → P a ∧ P b) (l : List α) (hl : 2 ≤ l.length) (h : l.Pairwise R) :
    ∀ a ∈ l, P a := by
  match l, hl, h with
  | x :: y :: rest, _, h =>
    have hx := (List.pairwise_cons.1 h).1
    intro a ha
    rcases List.mem_cons.1 ha with rfl | ha
    · exact (hRP _ y (hx y (List.mem_cons_self y rest))).1
    · exact (hRP x a (hx a ha)).2

/-- Sorting the reverse of a sorted array gives the sorted array back when no
two keys are equal. -/
theorem arraySort_reverse {α : Type} {κ : Type} [LinearOrder κ] (comparefn : α → α → Option JSNumber)
    (key : α → κ) (l : List α)
    (h : ∀ a ∈ l, ∀ b ∈ l, sortLE comparefn a b ↔ key a ≤ key b)
    (hd : l.Pairwise (fun a b => key a ≠ key b)) :
    arraySort comparefn (arraySort comparefn l).reverse = arraySort comparefn l := by
  have hmem : ∀ a, a ∈ (arraySort comparefn l).reverse ↔ a ∈ l := fun a => by
    rw [List.mem_reverse, mem_arraySort]
  have h2 : ∀ a ∈ (arraySort comparefn l).reverse, ∀ b ∈ (arraySort comparefn l).reverse,
      sortLE comparefn a b ↔ key a ≤ key b :=
    fun a ha b hb => h a ((hmem a).1 ha) b ((hmem b).1 hb)
  rw [arraySort_eq_key comparefn key _ h2, arraySort_eq_key comparefn key l h]
  set s := l.insertionSort (keyLE key) with hs
  set t := s.reverse.insertionSort (keyLE key) with ht
  have ps : s.Perm l := List.perm_insertionSort _ l
  have pt : t.Perm s := (List.perm_insertionSort _ s.reverse).trans (List.reverse_perm s)
  have symm : Symmetric (fun a b : α => key a ≠ key b) := fun _ _ hab => Ne.symm hab
  have ds : s.Pairwise (fun a b => key a ≠ key b) := (ps.pairwise_iff (fun hab => symm hab)).2 hd
  have dt : t.Pairwise (fun a b => key a ≠ key b) := (pt.pairwise_iff (fun hab => symm hab)).2 ds
  have ss : s.Pairwise (keyLE key) := List.sorted_insertionSort (keyLE key) l
  have st : t.Pairwise (keyLE key) := List.sorted_insertionSort (keyLE key) s.reverse
  have ls : s.Sorted (fun a b => key a < key b) :=
    (ss.and ds).imp (fun hab => lt_of_le_of_ne hab.1 hab.2)
  have lt : t.Sorted (fun a b => key a < key b) :=
    (st.and dt).imp (fun hab => lt_of_le_of_ne hab.1 hab.2)
  haveI : IsAntisymm α (fun a b => key a < key b) :=
    ⟨fun _ _ h1 h2 => absurd (lt_trans h1 h2) (lt_irrefl _)⟩
  exact List.eq_of_perm_of_sorted pt lt ls

/-! ## The comparators of the script -/

theorem sortLE_stringComparefn (host : Host) (id : String) (start stop : Int) (a b : Card) :
    sortLE (stringComparefn host id start stop) a b ↔
      stringKey host id start stop a ≤ stringKey host id start stop b := by
  have p1 : (JSNumber.ofInt 1).isPositive = true := by decide
  have p2 : (JSNumber.ofInt (-1)).isPositive = false := by decide
  have p3 : (JSNumber.ofInt 0).isPositive = false := by decide
  unfold sortLE sortCompare stringComparefn stringKey stringLess
  simp only
  by_cases h1 : (substring (host.toLowerCase (b.textContent id)) start
      ((host.toLowerCase (b.textContent id)).length - stop)).data <
      (substring (host.toLowerCase (a.textContent id)) start
      ((host.toLowerCase (a.textContent id)).length - stop)).data
  · simp only [h1, decide_True, if_true, Option.getD_some, p1]
    constructor
    · intro h; exact absurd h (by decide)
    · intro h; exact absurd h1 (not_lt.2 h)
  · simp only [h1, decide_False, if_false, Bool.false_eq_true]
    constructor
    · intro _; exact not_lt.1 h1
    · intro _
      split
      · simpa using p2
      · simpa using p3

theorem numberComparefn_of_some (id : String) (start stop : Int) (a b : Card) (x y : JSNumber)
    (hx : Number (numberText id start stop a) = some x)
    (hy : Number (numberText id start stop b) = some y) :
    numberComparefn id start stop a b = x.sub y := by
  unfold numberComparefn
  unfold numberText at hx hy
  simp only [hx, hy]

theorem sortLE_numberComparefn_of_nan (id : String) (start stop : Int) (a b : Card)
    (h : Number (numberText id start stop a) = none ∨
      Number (numberText id start stop b) = none) :
    sortLE (numberComparefn id start stop) a b := by
  have hc : numberComparefn id start stop a b = none := by
    unfold numberComparefn
    unfold numberText at h
    simp only
    rcases h with h | h
    · rw [h]
    · rw [h]
      cases Number (substring (a.textContent id) start ((a.textContent id).length - stop)) <;> rfl
  unfold sortLE sortCompare
  rw [hc]
  rfl

/-- On texts that read as numbers, the comparator of `getNumberSortedList`
orders the cards by those numbers. -/
theorem sortLE_numberComparefn (id : String) (start stop : Int) (a b : Card)
    (ha : Number (numberText id start stop a) ≠ none)
    (hb : Number (numberText id start stop b) ≠ none) :
    sortLE (numberComparefn id start stop) a b ↔
      numberKey id start stop a ≤ numberKey id start stop b := by
  obtain ⟨x, hx⟩ := Option.ne_none_iff_exists'.1 ha
  obtain ⟨y, hy⟩ := Option.ne_none_iff_exists'.1 hb
  have hp := sub_isPositive x y (Number_valid _ x hx) (Number_valid _ y hy)
  unfold sortLE sortCompare numberKey
  rw [numberComparefn_of_some id start stop a b x y hx hy, hx, hy]
  simp only [Option.map_some', Option.getD_some]
  rw [← not_lt, ← hp]
  simp

theorem numberComparefn_total (id : String) (start stop : Int) (a b : Card) :
    sortLE (numberComparefn id start stop) a b ∨ sortLE (numberComparefn id start stop) b a := by
  by_cases ha : Number (numberText id start stop a) = none
  · exact Or.inl (sortLE_numberComparefn_of_nan id start stop a b (Or.inl ha))
  by_cases hb : Number (numberText id start stop b) = none
  · exact Or.inl (sortLE_numberComparefn_of_nan id start stop a b (Or.inr hb))
  rw [sortLE_numberComparefn id start stop a b ha hb, sortLE_numberComparefn id start stop b a hb ha]
  exact le_total _ _

theorem stringComparefn_total (host : Host) (id : String) (start stop : Int) (a b : Card) :
    sortLE (stringComparefn host id start stop) a b ∨
      sortLE (stringComparefn host id start stop) b a := by
  rw [sortLE_stringComparefn, sortLE_stringComparefn]
  exact le_total _ _

/-- Every two cards are comparable one way or the other by each comparator of
the script. -/
theorem sortComparefn_total (host : Host) (selection : String) (a b : Card) :
    sortLE (sortComparefn host selection) a b ∨ sortLE (sortComparefn host selection) b a := by
  unfold sortComparefn
  split
  · exact stringComparefn_total host _ _ _ a b
  · split
    · exact stringComparefn_total host _ _ _ a b
    · split
      · exact numberComparefn_total _ _ _ a b
      · exact numberComparefn_total _ _ _ a b

theorem getSortedList_eq (host : Host) (dom : Dom) (list : List Card)
    (h : dom.sortBy ∈ sortFields) :
    getSortedList host dom list =
      if dom.sortDescending then (arraySort (sortComparefn host dom.sortBy) list).reverse
      else arraySort (sortComparefn host dom.sortBy) list := by
  simp only [sortFields, List.mem_cons, List.mem_singleton, List.not_mem_nil, or_false] at h
  rcases h with h | h | h | h <;>
    simp [getSortedList, sortComparefn, h, getStringSortedList, getNumberSortedList]

theorem getSortedList_length (host : Host) (dom : Dom) (list : List Card) :
    (getSortedList host dom list).length = list.length := by
  unfold getSortedList
  simp only [getStringSortedList, getNumberSortedList, arraySort]
  split_ifs <;> simp [List.length_insertionSort]

theorem arraySort_reverse_stringComparefn (host : Host) (id : String) (start stop : Int)
    (list : List Card)
    (hd : list.Pairwise (fun a b => ¬ tied (stringComparefn host id start stop) a b)) :
    arraySort (stringComparefn host id start stop)
        (arraySort (stringComparefn host id start stop) list).reverse =
      arraySort (stringComparefn host id start stop) list := by
  have hk : ∀ a ∈ list, ∀ b ∈ list, sortLE (stringComparefn host id start stop) a b ↔
      stringKey host id start stop a ≤ stringKey host id start stop b :=
    fun a _ b _ => sortLE_stringComparefn host id start stop a b
  refine arraySort_reverse _ (stringKey host id start stop) list hk (hd.imp ?_)
  intro a b hab heq
  exact hab ⟨(sortLE_stringComparefn host id start stop a b).2 (le_of_eq heq),
    (sortLE_stringComparefn host id start stop b a).2 (le_of_eq heq.symm)⟩

theorem arraySort_reverse_numberComparefn (id : String) (start stop : Int) (list : List Card)
    (hd : list.Pairwise (fun a b => ¬ tied (numberComparefn id start stop) a b)) :
    arraySort (numberComparefn id start stop)
        (arraySort (numberComparefn id start stop) list).reverse =
      arraySort (numberComparefn id start stop) list := by
  by_cases hl : 2 ≤ list.length
  · have hnum : ∀ a ∈ list, Number (numberText id start stop a) ≠ none := by
      refine forall_of_pairwise _ (fun a => Number (numberText id start stop a) ≠ none) ?_
        list hl hd
      intro a b hab
      constructor
      · intro hn
        exact hab ⟨sortLE_numberComparefn_of_nan id start stop a b (Or.inl hn),
          sortLE_numberComparefn_of_nan id start stop b a (Or.inr hn)⟩
      · intro hn
        exact hab ⟨sortLE_numberComparefn_of_nan id start stop a b (Or.inr hn),
          sortLE_numberComparefn_of_nan id start stop b a (Or.inl hn)⟩
    have hk : ∀ a ∈ list, ∀ b ∈ list, sortLE (numberComparefn id start stop) a b ↔
        numberKey id start stop a ≤ numberKey id start stop b :=
      fun a ha b hb => sortLE_numberComparefn id start stop a b (hnum a ha) (hnum b hb)
    refine arraySort_reverse _ (numberKey id start stop) list hk
      ((List.Pairwise.and_mem.1 hd).imp ?_)
    rintro a b ⟨ha, hb, hab⟩ heq
    exact hab ⟨(hk a ha b hb).2 (le_of_eq heq), (hk b hb a ha).2 (le_of_eq heq.symm)⟩
  · match list, hl with
    | [], _ => rfl
    | [a], _ => rfl
    | _ :: _ :: _, hl => exact absurd (by simp) hl

/-- For each comparator of the script: sorting a sorted array again changes
nothing, and sorting the reverse of a sorted array gives the sorted array back
when no two cards are tied. -/
theorem arraySort_sortComparefn (host : Host) (selection : String) (list : List Card) :
    arraySort (sortComparefn host selection) (arraySort (sortComparefn host selection) list) =
      arraySort (sortComparefn host selection) list ∧
    (list.Pairwise (fun a b => ¬ tied (sortComparefn host selection) a b) →
      arraySort (sortComparefn host selection)
        (arraySort (sortComparefn host selection) list).reverse =
      arraySort (sortComparefn host selection) list) := by
  refine ⟨arraySort_idem _ (sortComparefn_total host selection) list, ?_⟩
  unfold sortComparefn
  split
  · exact arraySort_reverse_stringComparefn host _ _ _ list
  · split
    · exact arraySort_reverse_stringComparefn host _ _ _ list
    · split
      · exact arraySort_reverse_numberComparefn _ _ _ list
      · exact arraySort_reverse_numberComparefn _ _ _ list

/-! ## Sorting the cards -/

/-- C5, as the script has it: for each of the four sort fields, `getSortedList`
applied to its own output returns that output when ascending is selected,
also when several cards have equal sort keys, and when descending is selected
provided no two cards are tied. -/
theorem getSortedList_idempotent (host : Host) (dom : Dom) (list : List Card)
    (hfield : dom.sortBy ∈ sortFields)
    (hdesc : dom.sortDescending = true →
      list.Pairwise (fun a b => ¬ tied (sortComparefn host dom.sortBy) a b)) :
    getSortedList host dom (getSortedList host dom list) = getSortedList host dom list := by
  obtain ⟨hasc, hrev⟩ := arraySort_sortComparefn host dom.sortBy list
  rw [getSortedList_eq host dom _ hfield, getSortedList_eq host dom list hfield]
  cases hd : dom.sortDescending
  · simpa using hasc
  · simp only [if_true]
    rw [hrev (hdesc hd)]

/-- C5 at an instance: the cards of Belgium and Canada sorted by population,
descending; their populations differ. -/
theorem getSortedList_idempotent_witness :
    getSortedList offlineHost { blankDom with sortBy := "population", sortDescending := true }
        (getSortedList offlineHost
          { blankDom with sortBy := "population", sortDescending := true }
          [getCard belgium, getCard canada]) =
      getSortedList offlineHost { blankDom with sortBy := "population", sortDescending := true }
        [getCard belgium, getCard canada] :=
  getSortedList_idempotent offlineHost
    { blankDom with sortBy := "population", sortDescending := true }
    [getCard belgium, getCard canada] (by decide) (by intro _; decide)

/-- C5 fails as stated: by capital, descending, two cards without a capital
(both read "Capital: N/A") change places at each application. -/
theorem getSortedList_not_idempotent :
    getSortedList offlineHost { blankDom with sortBy := "capital", sortDescending := true }
        (getSortedList offlineHost { blankDom with sortBy := "capital", sortDescending := true }
          [getCard antarctica, getCard macau]) ≠
      getSortedList offlineHost { blankDom with sortBy := "capital", sortDescending := true }
        [getCard antarctica, getCard macau] := by
  decide

/-- C6: for every list of cards and every sort field, `getSortedList` with
descending selected returns the reverse of what it returns with ascending
selected; the listener of the sort direction puts the displayed cards back in
reverse order, leaving everything else as it was and consulting neither the
host nor a comparator; so a display produced by `getSortedList` becomes, after
the toggle, what `getSortedList` returns for the other direction. -/
theorem getSortedList_descending (host : Host) (dom : Dom) (list : List Card) :
    getSortedList host { dom with sortDescending := true } list =
      (getSortedList host { dom with sortDescending := false } list).reverse ∧
    onSortOrderChange dom = { dom with cardList := dom.cardList.reverse } ∧
    (dom.cardList = getSortedList host dom list →
      (onSortOrderChange dom).cardList =
        getSortedList host { dom with sortDescending := !dom.sortDescending } list) := by
  refine ⟨by simp [getSortedList], rfl, ?_⟩
  intro h
  simp only [onSortOrderChange, h, getSortedList]
  cases dom.sortDescending <;> simp

theorem numberText_population (r : Country) :
    numberText "population" ("Population: ".length : Nat) 0 (getCard r) =
      numberToString r.population := by
  have h : (getCard r).textContent "population" = "Population: " ++ numberToString r.population := by
    simp [Card.textContent, getCard]
  unfold numberText
  rw [h]
  exact substring_append_right "Population: " (numberToString r.population)

theorem Number_population (r : Country) :
    Number (numberText "population" ("Population: ".length : Nat) 0 (getCard r)) =
      some (JSNumber.ofInt r.population) := by
  rw [numberText_population, Number_numberToString]

theorem sortLE_population (a b : Country) :
    sortLE (numberComparefn "population" ("Population: ".length : Nat) 0) (getCard a) (getCard b) ↔
      a.population ≤ b.population := by
  have key : ∀ r : Country,
      numberKey "population" ("Population: ".length : Nat) 0 (getCard r) =
        (((r.population : ℚ) : WithTop ℚ) : WithBot (WithTop ℚ)) := by
    intro r
    have hneg : decide ((r.population : Int) < 0) = false := decide_eq_false (by omega)
    unfold numberKey
    rw [Number_population]
    simp only [Option.map_some', Option.getD_some, JSNumber.ofInt, hneg, Int.natAbs_ofNat]
    exact toNumber_nat_exact r.population r.populationSafe
  rw [sortLE_numberComparefn _ _ _ _ _ (by rw [Number_population]; simp)
    (by rw [Number_population]; simp), key a, key b, WithBot.coe_le_coe, WithTop.coe_le_coe]
  exact Nat.cast_le

/-- Sorting the cards of some records by population is rendering the records
sorted by population. -/
theorem arraySort_population (records : List Country) :
    arraySort (numberComparefn "population" ("Population: ".length : Nat) 0) (records.map getCard) =
      (records.insertionSort (fun a b => a.population ≤ b.population)).map getCard := by
  unfold arraySort
  rw [List.map_insertionSort (fun a b : Country => a.population ≤ b.population)
    (sortLE (numberComparefn "population" ("Population: ".length : Nat) 0)) getCard records
    (fun a _ b _ => (sortLE_population a b).symm)]

/-- C7: for every list of records, sorting their cards by population ascending
returns a permutation of the cards, namely the cards of a permutation of the
records in non-decreasing order of population, and descending returns the cards of the reverse of that
permutation, which is in non-increasing order; the number read back from the
population text of a card is the population of its record.  For Canada
(38000000) and Belgium (11500000) the results are Belgium, Canada and Canada,
Belgium. -/
theorem getSortedList_population (host : Host) (dom : Dom) (records : List Country) :
    (∀ r : Country,
      Number (numberText "population" ("Population: ".length : Nat) 0 (getCard r)) =
        some (JSNumber.ofInt r.population)) ∧
    (∃ sorted : List Country,
      sorted.Perm records ∧
      (sorted.map getCard).Perm (records.map getCard) ∧
      sorted.Sorted (fun a b => a.population ≤ b.population) ∧
      sorted.reverse.Sorted (fun a b => a.population ≥ b.population) ∧
      getSortedList host { dom with sortBy := "population", sortDescending := false }
        (records.map getCard) = sorted.map getCard ∧
      getSortedList host { dom with sortBy := "population", sortDescending := true }
        (records.map getCard) = sorted.reverse.map getCard) ∧
    getSortedList host { dom with sortBy := "population", sortDescending := false }
      [getCard canada, getCard belgium] = [getCard belgium, getCard canada] ∧
    getSortedList host { dom with sortBy := "population", sortDescending := true }
      [getCard canada, getCard belgium] = [getCard canada, getCard belgium] := by
  have key : ∀ (rs : List Country) (d : Bool),
      getSortedList host { dom with sortBy := "population", sortDescending := d } (rs.map getCard) =
        if d then ((rs.insertionSort (fun a b => a.population ≤ b.population)).map getCard).reverse
        else (rs.insertionSort (fun a b => a.population ≤ b.population)).map getCard := by
    intro rs d
    have hc : sortComparefn host "population" =
        numberComparefn "population" ("Population: ".length : Nat) 0 := by
      simp [sortComparefn]
    rw [getSortedList_eq host _ _ (by simp [sortFields])]
    simp only [hc, arraySort_population]
  have sortedSample : [canada, belgium].insertionSort (fun a b => a.population ≤ b.population) =
      [belgium, canada] := by decide
  refine ⟨Number_population, ?_, ?_, ?_⟩
  · refine ⟨records.insertionSort (fun a b => a.population ≤ b.population),
      List.perm_insertionSort _ records, (List.perm_insertionSort _ records).map getCard,
      List.sorted_insertionSort _ records, ?_, ?_, ?_⟩
    · rw [List.Sorted, List.pairwise_reverse]
      exact List.sorted_insertionSort (fun a b : Country => a.population ≤ b.population) records
    · rw [key records false]; simp
    · rw [key records true]; simp
  · have := key [canada, belgium] false
    rw [sortedSample] at this
    simpa using this
  · have := key [canada, belgium] true
    rw [sortedSample] at this
    simpa using this

/-! ## Rendering a card -/

/-- With exactly one continent, two official languages are listed under the
plural label in mapping order. -/
theorem getCard_langs_two (country : Country) (k1 a k2 b c : String)
    (hl : country.languages = some [(k1, a), (k2, b)]) (hc : country.continents = [c]) :
    (getCard country).langs = "Official Languages: " ++ a ++ ", " ++ b := by
  simp [getCard, hl, hc, join, String.intercalate, String.intercalate.go, String.append_assoc]

/-- C9 at a failing input: for a record with two official languages and two
continents the element `#langs` shows the continents, and `#continents` stays
empty. -/
theorem getCard_langs_overwritten :
    (getCard azerbaijan).langs = "Continents: Europe, Asia" ∧
    (getCard azerbaijan).continents = "" := by
  decide

/-! ## Filtering -/

/-- With a dimension and a value selected, `getFilteredData` is the filter by
the predicate of the dimension. -/
theorem getFilteredData_of_selected (dom : Dom) (data : List Country) (dimension v : String)
    (h : dimensionSelected dom dimension v) :
    getFilteredData dom data = Except.ok (some (data.filter (keeps dimension v))) := by
  obtain ⟨hdim, hopt, hsel⟩ := h
  obtain ⟨o, ho, hid⟩ := Option.map_eq_some'.1 hopt
  obtain ⟨select, hq, hs⟩ := Option.bind_eq_some.1 hsel
  simp only [dimensions, List.mem_cons, List.mem_singleton, List.not_mem_nil, or_false] at hdim
  unfold getFilteredData
  simp only [ho, Option.map_some', hid]
  rcases hdim with rfl | rfl | rfl
  · have e : substring ("filter-by-" ++ "lang") ("filter-by-".length : Nat)
        (("filter-by-" ++ "lang").length : Nat) = "lang" := by decide
    simp only [e, if_true, getArrayFilteredData, hq, hs, Except.map, arrayFilter]
    refine congrArg (fun l => Except.ok (some l)) (List.filter_congr ?_)
    intro c _
    simp only [Country.values, keeps, if_true]
    cases c.languages <;> simp [JSValue.truthy, arrayIncludes]
  · have e : substring ("filter-by-" ++ "continent") ("filter-by-".length : Nat)
        (("filter-by-" ++ "continent").length : Nat) = "continent" := by decide
    have n1 : ¬ (some "continent" = some "lang") := by decide
    simp only [e, n1, if_true, if_false, getArrayFilteredData, hq, hs, Except.map, arrayFilter]
    refine congrArg (fun l => Except.ok (some l)) (List.filter_congr ?_)
    intro c _
    simp [Country.values, keeps, JSValue.truthy, arrayIncludes]
  · have e : substring ("filter-by-" ++ "region") ("filter-by-".length : Nat)
        (("filter-by-" ++ "region").length : Nat) = "region" := by decide
    have n1 : ¬ (some "region" = some "lang") := by decide
    have n2 : ¬ (some "region" = some "continent") := by decide
    simp only [e, n1, n2, if_true, if_false, getRegionFilteredData, hq, hs, Except.map,
      arrayFilter]
    refine congrArg (fun l => Except.ok (some l)) (List.filter_congr ?_)
    intro c _
    simp only [keeps, JSValue.truthy]
    rw [if_neg (by decide), if_neg (by decide), Bool.eq_iff_iff]
    simp

/-- C4: with a dimension and a value `v` selected, `getFilteredData` returns
the records of the dataset that satisfy the predicate of the dimension, in
their original order and none besides; under `region` a record whose subregion
is `v` is kept whatever its region. -/
theorem getFilteredData_spec (dom : Dom) (data : List Country) (dimension v : String)
    (h : dimensionSelected dom dimension v) :
    getFilteredData dom data = Except.ok (some (data.filter (keeps dimension v))) ∧
    (data.filter (keeps dimension v)).Sublist data ∧
    (∀ country, country ∈ data.filter (keeps dimension v) ↔
      country ∈ data ∧ keeps dimension v country = true) ∧
    (dimension = "region" → ∀ country ∈ data, country.subregion = some v →
      country ∈ data.filter (keeps dimension v)) := by
  refine ⟨getFilteredData_of_selected dom data dimension v h, List.filter_sublist data,
    fun c => List.mem_filter, ?_⟩
  rintro rfl c hc hsub
  exact List.mem_filter.2 ⟨hc, by simp [keeps, hsub]⟩

/-- C4 at an instance: filtering by region "Europe" keeps the record of region
Europe and the record of region Asia whose subregion is Europe, and drops
Canada. -/
theorem getFilteredData_spec_witness :
    dimensionSelected regionDom "region" "Europe" ∧
    getFilteredData regionDom [europeanRecord, canada, asianRecord] =
      Except.ok (some [europeanRecord, asianRecord]) :=
  ⟨by decide,
    (getFilteredData_spec regionDom [europeanRecord, canada, asianRecord] "region" "Europe"
      (by decide)).1.trans (by rfl)⟩

theorem getFilteredData_congr (d1 d2 : Dom) (data : List Country)
    (h1 : d1.filterOptions = d2.filterOptions) (h2 : d1.filterSelections = d2.filterSelections) :
    getFilteredData d1 data = getFilteredData d2 data := by
  simp only [getFilteredData, getArrayFilteredData, getRegionFilteredData, querySelectOptions,
    h1, h2]

/-! ## Displaying -/

/-- Function `displayData` issues no request: it adds to the record of actions
its own call and nothing else. -/
theorem displayData_trace (host : Host) (data : Option (List Country)) (d : Dom) :
    (displayData host data d).2.trace = d.trace ++ [Event.display data] := by
  unfold displayData
  simp only
  split
  · rfl
  · split
    · split
      · rfl
      · rfl
      · split <;> rfl
    · rfl

/-- C10: for every dataset, with filtering off or on with a dimension and a
value selected, `displayData` returns; afterwards the warning is visible
exactly when no card is displayed, no card is displayed exactly when the
dataset after filtering (the dataset itself when filtering is off) is empty,
and the number of cards displayed is the number of records of that set. -/
theorem displayData_empty_state (host : Host) (dom : Dom) (data : List Country)
    (h : dom.filterToggle = false ∨ ∃ dimension v, dimensionSelected dom dimension v) :
    ∃ shown : List Country,
      (if dom.filterToggle = true then getFilteredData dom data = Except.ok (some shown)
        else shown = data) ∧
      (displayData host (some data) dom).1 = Except.ok () ∧
      ((displayData host (some data) dom).2.warnHidden = false ↔
        (displayData host (some data) dom).2.cardList = []) ∧
      ((displayData host (some data) dom).2.cardList = [] ↔ shown = []) ∧
      (displayData host (some data) dom).2.cardList.length = shown.length := by
  have cards : ∀ (d : Dom) (l : List Country),
      getSortedList host d (l.map getCard) = [] ↔ l = [] := by
    intro d l
    rw [← List.length_eq_zero, getSortedList_length, List.length_map, List.length_eq_zero]
  cases ht : dom.filterToggle
  · refine ⟨data, by simp, ?_⟩
    unfold displayData
    simp only [ht]
    by_cases hd : data.length > 0
    · have hne : data ≠ [] := by rintro rfl; simp at hd
      simp [hd, hne, cards, getSortedList_length]
    · have he : data = [] := by
        cases data with
        | nil => rfl
        | cons a l => simp at hd
      simp [he]
  · rcases h with h | ⟨dimension, v, hsel⟩
    · rw [ht] at h; exact absurd h (by decide)
    · have hf := getFilteredData_of_selected dom data dimension v hsel
      refine ⟨data.filter (keeps dimension v), by simp [hf], ?_⟩
      unfold displayData
      simp only [ht]
      by_cases hd : data.length > 0
      · have hf2 : getFilteredData
            { cardList := [], searchBar := dom.searchBar, sortBy := dom.sortBy,
              sortDescending := dom.sortDescending, filterToggle := true,
              filterOptions := dom.filterOptions, filterSelections := dom.filterSelections,
              warnHidden := true, trace := dom.trace ++ [Event.display (some data)] } data =
            Except.ok (some (data.filter (keeps dimension v))) :=
          (getFilteredData_congr _ dom data rfl rfl).trans hf
        simp only [hd, if_true, hf2]
        by_cases hs : (data.filter (keeps dimension v)).length > 0
        · have hne : data.filter (keeps dimension v) ≠ [] := by
            intro h0; rw [h0] at hs; simp at hs
          simp [hs, hne, cards, getSortedList_length]
        · have he : data.filter (keeps dimension v) = [] := by
            cases hl : data.filter (keeps dimension v) with
            | nil => rfl
            | cons a l => rw [hl] at hs; simp at hs
          simp [hs, he]
      · have he : data = [] := by
          cases data with
          | nil => rfl
          | cons a l => simp at hd
        simp [he]

/-- C10 at an instance: filtering Canada by region "Europe" leaves nothing, so
no card is displayed and the warning is visible. -/
theorem displayData_empty_state_witness :
    ∃ shown : List Country,
      (if regionDom.filterToggle = true then
          getFilteredData regionDom [canada] = Except.ok (some shown)
        else shown = [canada]) ∧
      (displayData offlineHost (some [canada]) regionDom).1 = Except.ok () ∧
      ((displayData offlineHost (some [canada]) regionDom).2.warnHidden = false ↔
        (displayData offlineHost (some [canada]) regionDom).2.cardList = []) ∧
      ((displayData offlineHost (some [canada]) regionDom).2.cardList = [] ↔ shown = []) ∧
      (displayData offlineHost (some [canada]) regionDom).2.cardList.length = shown.length :=
  displayData_empty_state offlineHost regionDom [canada]
    (Or.inr ⟨"region", "Europe", by decide⟩)

/-! ## Searching -/

theorem fetchData_fst (host : Host) (query : String) (d1 d2 : Dom) :
    (fetchData host query d1).1 = (fetchData host query d2).1 := by
  unfold fetchData
  simp only
  cases host.fetch (url ++ query) with
  | none => rfl
  | some response =>
    simp only
    split
    · rfl
    · cases response.json <;> rfl

theorem fetchData_snd (host : Host) (query : String) (d : Dom) :
    (fetchData host query d).2 = { d with trace := d.trace ++ [Event.request (url ++ query)] } := by
  unfold fetchData
  simp only
  cases host.fetch (url ++ query) with
  | none => rfl
  | some response =>
    simp only
    split
    · rfl
    · cases response.json <;> rfl

theorem fetchData_eq (host : Host) (query : String) (d1 d2 : Dom)
    (result : Except JSError (List Country)) (h : (fetchData host query d1).1 = result) :
    fetchData host query d2 =
      (result, { d2 with trace := d2.trace ++ [Event.request (url ++ query)] }) := by
  apply Prod.ext
  · rw [fetchData_fst host query d2 d1, h]
  · exact fetchData_snd host query d2

/-- The narrowing step never narrows: its callback yields `undefined` for every
record, so the filtered array is empty and the by-name result is kept. -/
theorem narrowToCommonName_eq (host : Host) (searchBar : String) (data : List Country) :
    narrowToCommonName host searchBar data = data := by
  simp [narrowToCommonName, arrayFilter, JSValue.truthy]

/-- C1 at a failing input: for the query "united" answered with Tanzania and
the United States, `displayData` receives both records, although the records
whose common name contains the query are the United States alone. -/
theorem displaySearchResults_keeps_unnarrowed :
    (displaySearchResults unitedHost { blankDom with searchBar := "united" }).2.trace =
      [Event.request (url ++ "name/united"), Event.display (some [tanzania, unitedStates])] ∧
    [tanzania, unitedStates].filter
      (fun country => includes (unitedHost.toLowerCase country.common) "united") =
      [unitedStates] := by
  decide

/-- C3: for a non-empty query, when the strategies before the one at position
`i` fail at the fetcher and that one succeeds with `records`, the search
requests exactly the strategies up to position `i`, in the fixed order, and
then calls `displayData` with `records` (for the by-name strategy: with the
outcome of the narrowing step on `records`); nothing is requested afterwards. -/
theorem displaySearchResults_first_success (host : Host) (dom : Dom) (i : Nat)
    (records : List Country)
    (hq : dom.searchBar ≠ "")
    (hi : i < strategies.length)
    (hfail : ∀ j, j < i → ∀ p, strategies[j]? = some p →
      ∃ e, (fetchData host (p ++ dom.searchBar) dom).1 = Except.error e)
    (hok : ∀ p, strategies[i]? = some p →
      (fetchData host (p ++ dom.searchBar) dom).1 = Except.ok records) :
    displaySearchResults host dom =
      displayData host
        (some (if i = 0 then narrowToCommonName host dom.searchBar records else records))
        { dom with trace := dom.trace ++
            (strategies.take (i + 1)).map (fun p => Event.request (url ++ (p ++ dom.searchBar))) } ∧
    (displaySearchResults host dom).2.trace =
      dom.trace ++
        (strategies.take (i + 1)).map (fun p => Event.request (url ++ (p ++ dom.searchBar))) ++
        [Event.display
          (some (if i = 0 then narrowToCommonName host dom.searchBar records else records))] := by
  have main : displaySearchResults host dom =
      displayData host
        (some (if i = 0 then narrowToCommonName host dom.searchBar records else records))
        { dom with trace := dom.trace ++
            (strategies.take (i + 1)).map (fun p => Event.request (url ++ (p ++ dom.searchBar))) } := by
    have fin : ∀ r : Except JSError Unit × Dom,
        (match r with
          | (Except.ok (), d) => ((Except.ok () : Except JSError Unit), d)
          | (Except.error e, d) => (Except.error e, d)) = r := by
      rintro ⟨(_ | ⟨⟨⟩⟩), _⟩ <;> rfl
    have step : ∀ (p : String) (result : Except JSError (List Country)),
        (fetchData host (p ++ dom.searchBar) dom).1 = result → ∀ d : Dom,
        fetchData host (p ++ dom.searchBar) d =
          (result, { d with trace := d.trace ++ [Event.request (url ++ (p ++ dom.searchBar))] }) :=
      fun p result h d => fetchData_eq host _ dom d result h
    simp only [strategies, List.length_cons, List.length_nil] at hi
    unfold displaySearchResults
    rw [if_neg hq]
    interval_cases i
    · have k := step _ _ (hok "name/" rfl)
      simp only [k, strategies, List.take, List.map, List.append_assoc, List.singleton_append,
        if_true]
      exact fin _
    · obtain ⟨e0, h0⟩ := hfail 0 (by omega) "name/" rfl
      have s0 := step _ _ h0
      have k := step _ _ (hok "translation/" rfl)
      simp only [s0, k, strategies, List.take, List.map, List.append_assoc,
        List.singleton_append, List.cons_append, List.nil_append]
      exact fin _
    · obtain ⟨e0, h0⟩ := hfail 0 (by omega) "name/" rfl
      have s0 := step _ _ h0
      obtain ⟨e1, h1⟩ := hfail 1 (by omega) "translation/" rfl
      have s1 := step _ _ h1
      have k := step _ _ (hok "capital/" rfl)
      simp only [s0, s1, k, strategies, List.take, List.map, List.append_assoc,
        List.singleton_append, List.cons_append, List.nil_append]
      exact fin _
    · obtain ⟨e0, h0⟩ := hfail 0 (by omega) "name/" rfl
      have s0 := step _ _ h0
      obtain ⟨e1, h1⟩ := hfail 1 (by omega) "translation/" rfl
      have s1 := step _ _ h1
      obtain ⟨e2, h2⟩ := hfail 2 (by omega) "capital/" rfl
      have s2 := step _ _ h2
      have k := step _ _ (hok "lang/" rfl)
      simp only [s0, s1, s2, k, strategies, List.take, List.map, List.append_assoc,
        List.singleton_append, List.cons_append, List.nil_append]
      exact fin _
    · obtain ⟨e0, h0⟩ := hfail 0 (by omega) "name/" rfl
      have s0 := step _ _ h0
      obtain ⟨e1, h1⟩ := hfail 1 (by omega) "translation/" rfl
      have s1 := step _ _ h1
      obtain ⟨e2, h2⟩ := hfail 2 (by omega) "capital/" rfl
      have s2 := step _ _ h2
      obtain ⟨e3, h3⟩ := hfail 3 (by omega) "lang/" rfl
      have s3 := step _ _ h3
      have k := step _ _ (hok "demonym/" rfl)
      simp only [s0, s1, s2, s3, k, strategies, List.take, List.map, List.append_assoc,
        List.singleton_append, List.cons_append, List.nil_append]
      exact fin _
    · obtain ⟨e0, h0⟩ := hfail 0 (by omega) "name/" rfl
      have s0 := step _ _ h0
      obtain ⟨e1, h1⟩ := hfail 1 (by omega) "translation/" rfl
      have s1 := step _ _ h1
      obtain ⟨e2, h2⟩ := hfail 2 (by omega) "capital/" rfl
      have s2 := step _ _ h2
      obtain ⟨e3, h3⟩ := hfail 3 (by omega) "lang/" rfl
      have s3 := step _ _ h3
      obtain ⟨e4, h4⟩ := hfail 4 (by omega) "demonym/" rfl
      have s4 := step _ _ h4
      have k := step _ _ (hok "region/" rfl)
      simp only [s0, s1, s2, s3, s4, k, strategies, List.take, List.map, List.append_assoc,
        List.singleton_append, List.cons_append, List.nil_append]
      exact fin _
    · obtain ⟨e0, h0⟩ := hfail 0 (by omega) "name/" rfl
      have s0 := step _ _ h0
      obtain ⟨e1, h1⟩ := hfail 1 (by omega) "translation/" rfl
      have s1 := step _ _ h1
      obtain ⟨e2, h2⟩ := hfail 2 (by omega) "capital/" rfl
      have s2 := step _ _ h2
      obtain ⟨e3, h3⟩ := hfail 3 (by omega) "lang/" rfl
      have s3 := step _ _ h3
      obtain ⟨e4, h4⟩ := hfail 4 (by omega) "demonym/" rfl
      have s4 := step _ _ h4
      obtain ⟨e5, h5⟩ := hfail 5 (by omega) "region/" rfl
      have s5 := step _ _ h5
      have k := step _ _ (hok "subregion/" rfl)
      simp only [s0, s1, s2, s3, s4, s5, k, strategies, List.take, List.map, List.append_assoc,
        List.singleton_append, List.cons_append, List.nil_append]
      exact fin _
  refine ⟨main, ?_⟩
  rw [main, displayData_trace]

/-- C3 at an instance: by-name and by-translation fail, by-capital succeeds. -/
theorem displaySearchResults_first_success_witness :
    displaySearchResults ottawaHost { blankDom with searchBar := "ottawa" } =
      displayData ottawaHost (some (if 2 = 0 then
          narrowToCommonName ottawaHost "ottawa" [canada] else [canada]))
        { blankDom with
          searchBar := "ottawa"
          trace := [] ++ (strategies.take (2 + 1)).map
            (fun p => Event.request (url ++ (p ++ "ottawa"))) } ∧
    (displaySearchResults ottawaHost { blankDom with searchBar := "ottawa" }).2.trace =
      [] ++ (strategies.take (2 + 1)).map (fun p => Event.request (url ++ (p ++ "ottawa"))) ++
        [Event.display (some (if 2 = 0 then
          narrowToCommonName ottawaHost "ottawa" [canada] else [canada]))] :=
  displaySearchResults_first_success ottawaHost { blankDom with searchBar := "ottawa" } 2 [canada]
    (by decide) (by decide)
    (by
      intro j hj p hp
      interval_cases j
      · obtain rfl : "name/" = p := by simpa [strategies] using hp
        exact ⟨_, rfl⟩
      · obtain rfl : "translation/" = p := by simpa [strategies] using hp
        exact ⟨_, rfl⟩)
    (by
      intro p hp
      obtain rfl : "capital/" = p := by simpa [strategies] using hp
      rfl)

/-- When all seven strategies fail, the search clears the cards, leaves the
warning as it was and ends with the `TypeError` of `displayData(undefined)`. -/
theorem displaySearchResults_all_fail (host : Host) (dom : Dom)
    (hq : dom.searchBar ≠ "")
    (hfail : ∀ p ∈ strategies, ∃ e, (fetchData host (p ++ dom.searchBar) dom).1 = Except.error e) :
    (displaySearchResults host dom).1 = Except.error (JSError.typeError "data.length") ∧
    (displaySearchResults host dom).2.cardList = [] ∧
    (displaySearchResults host dom).2.warnHidden = dom.warnHidden := by
  have step : ∀ (p : String) (result : Except JSError (List Country)),
      (fetchData host (p ++ dom.searchBar) dom).1 = result → ∀ d : Dom,
      fetchData host (p ++ dom.searchBar) d =
        (result, { d with trace := d.trace ++ [Event.request (url ++ (p ++ dom.searchBar))] }) :=
    fun p result h d => fetchData_eq host _ dom d result h
  obtain ⟨e0, h0⟩ := hfail "name/" (by simp [strategies])
  obtain ⟨e1, h1⟩ := hfail "translation/" (by simp [strategies])
  obtain ⟨e2, h2⟩ := hfail "capital/" (by simp [strategies])
  obtain ⟨e3, h3⟩ := hfail "lang/" (by simp [strategies])
  obtain ⟨e4, h4⟩ := hfail "demonym/" (by simp [strategies])
  obtain ⟨e5, h5⟩ := hfail "region/" (by simp [strategies])
  obtain ⟨e6, h6⟩ := hfail "subregion/" (by simp [strategies])
  have s0 := step _ _ h0
  have s1 := step _ _ h1
  have s2 := step _ _ h2
  have s3 := step _ _ h3
  have s4 := step _ _ h4
  have s5 := step _ _ h5
  have s6 := step _ _ h6
  unfold displaySearchResults
  rw [if_neg hq]
  simp only [s0, s1, s2, s3, s4, s5, s6, displayData]
  simp

/-- C2 at a failing input: every request fails, cards are on display and the
warning is hidden; the search ends with a `TypeError`, no card displayed and
the warning still hidden. -/
theorem displaySearchResults_all_fail_hidden :
    displaySearchResults offlineHost
        { blankDom with searchBar := "zzzz", cardList := [getCard canada], warnHidden := true } =
      (Except.error (JSError.typeError "data.length"),
        { blankDom with
          searchBar := "zzzz"
          cardList := []
          warnHidden := true
          trace := [Event.request (url ++ "name/zzzz"), Event.request (url ++ "translation/zzzz"),
            Event.request (url ++ "capital/zzzz"), Event.request (url ++ "lang/zzzz"),
            Event.request (url ++ "demonym/zzzz"), Event.request (url ++ "region/zzzz"),
            Event.request (url ++ "subregion/zzzz"), Event.display none] }) := by
  rfl

/-! ## The filter options -/

theorem mem_setAdd (s : List String) (x y : String) : y ∈ setAdd s x ↔ y ∈ s ∨ y = x := by
  unfold setAdd
  split
  · rename_i h
    constructor
    · exact Or.inl
    · rintro (h1 | rfl)
      · exact h1
      · exact h
  · simp

theorem nodup_setAdd (s : List String) (x : String) (h : s.Nodup) : (setAdd s x).Nodup := by
  unfold setAdd
  split
  · exact h
  · rename_i hx
    rw [List.nodup_append]
    exact ⟨h, List.nodup_singleton x, by
      intro a ha hb
      rw [List.mem_singleton] at hb
      exact hx (hb ▸ ha)⟩

theorem mem_foldl_setAdd (l s : List String) (y : String) :
    y ∈ l.foldl setAdd s ↔ y ∈ s ∨ y ∈ l := by
  induction l generalizing s with
  | nil => simp
  | cons a l ih =>
    rw [List.foldl_cons, ih, mem_setAdd, List.mem_cons]
    tauto

theorem nodup_foldl_setAdd (l s : List String) (h : s.Nodup) : (l.foldl setAdd s).Nodup := by
  induction l generalizing s with
  | nil => exact h
  | cons a l ih => exact ih _ (nodup_setAdd s a h)

theorem truthyString_iff (s : String) : truthyString s = true ↔ s ≠ "" := by
  simp [truthyString]

/-- What one pass of the loop adds to the three sets. -/
theorem mem_addCountryOptions (sets : List String × List String × List String)
    (country : Country) (y : String) :
    (y ∈ (addCountryOptions sets country).1 ↔
      y ∈ sets.1 ∨ ∃ m, country.languages = some m ∧ y ∈ m.map Prod.snd) ∧
    (y ∈ (addCountryOptions sets country).2.1 ↔ y ∈ sets.2.1 ∨ y ∈ country.continents) ∧
    (y ∈ (addCountryOptions sets country).2.2 ↔
      y ∈ sets.2.2 ∨ (y ≠ "" ∧ (country.region = y ∨ country.subregion = some y))) := by
  refine ⟨?_, ?_, ?_⟩
  · unfold addCountryOptions
    simp only
    cases hl : country.languages with
    | none => simp
    | some m => simp only [mem_foldl_setAdd]; simp
  · unfold addCountryOptions
    simp only [mem_foldl_setAdd]
  · unfold addCountryOptions
    simp only
    cases hs : country.subregion with
    | none =>
      simp only
      by_cases hr : truthyString country.region = true
      · rw [if_pos hr, mem_setAdd]
        have := (truthyString_iff _).1 hr
        constructor
        · rintro (h | rfl)
          · exact Or.inl h
          · exact Or.inr ⟨this, Or.inl rfl⟩
        · rintro (h | ⟨_, h | h⟩)
          · exact Or.inl h
          · exact Or.inr h.symm
          · exact absurd h (by simp)
      · rw [if_neg hr]
        have hr2 : country.region = "" := by
          by_contra hne; exact hr ((truthyString_iff _).2 hne)
        constructor
        · exact Or.inl
        · rintro (h | ⟨hy, h | h⟩)
          · exact h
          · exact absurd (h ▸ hr2) hy
          · exact absurd h (by simp)
    | some sub =>
      simp only
      have key : ∀ base : List String, (y ∈ base ↔ y ∈ sets.2.2 ∨ (y ≠ "" ∧ country.region = y)) →
          (y ∈ (if truthyString sub = true then setAdd base sub else base) ↔
            y ∈ sets.2.2 ∨ (y ≠ "" ∧ (country.region = y ∨ some sub = some y))) := by
        intro base hb
        by_cases hsub : truthyString sub = true
        · rw [if_pos hsub, mem_setAdd, hb]
          have := (truthyString_iff _).1 hsub
          constructor
          · rintro ((h | ⟨h1, h2⟩) | rfl)
            · exact Or.inl h
            · exact Or.inr ⟨h1, Or.inl h2⟩
            · exact Or.inr ⟨this, Or.inr rfl⟩
          · rintro (h | ⟨h1, h2 | h2⟩)
            · exact Or.inl (Or.inl h)
            · exact Or.inl (Or.inr ⟨h1, h2⟩)
            · exact Or.inr (Option.some.inj h2).symm
        · rw [if_neg hsub, hb]
          have hs2 : sub = "" := by
            by_contra hne; exact hsub ((truthyString_iff _).2 hne)
          constructor
          · rintro (h | ⟨h1, h2⟩)
            · exact Or.inl h
            · exact Or.inr ⟨h1, Or.inl h2⟩
          · rintro (h | ⟨h1, h2 | h2⟩)
            · exact Or.inl h
            · exact Or.inr ⟨h1, h2⟩
            · exact absurd ((Option.some.inj h2) ▸ hs2) h1
      apply key
      by_cases hr : truthyString country.region = true
      · rw [if_pos hr, mem_setAdd]
        have := (truthyString_iff _).1 hr
        constructor
        · rintro (h | rfl)
          · exact Or.inl h
          · exact Or.inr ⟨this, rfl⟩
        · rintro (h | ⟨_, h⟩)
          · exact Or.inl h
          · exact Or.inr h.symm
      · rw [if_neg hr]
        have hr2 : country.region = "" := by
          by_contra hne; exact hr ((truthyString_iff _).2 hne)
        constructor
        · exact Or.inl
        · rintro (h | ⟨hy, h⟩)
          · exact h
          · exact absurd (h ▸ hr2) hy

theorem nodup_addCountryOptions (sets : List String × List String × List String)
    (country : Country) (h : sets.1.Nodup ∧ sets.2.1.Nodup ∧ sets.2.2.Nodup) :
    (addCountryOptions sets country).1.Nodup ∧ (addCountryOptions sets country).2.1.Nodup ∧
      (addCountryOptions sets country).2.2.Nodup := by
  obtain ⟨h1, h2, h3⟩ := h
  refine ⟨?_, ?_, ?_⟩
  · unfold addCountryOptions
    simp only
    cases country.languages with
    | none => exact h1
    | some m => exact nodup_foldl_setAdd _ _ h1
  · unfold addCountryOptions
    exact nodup_foldl_setAdd _ _ h2
  · unfold addCountryOptions
    simp only
    have hb : (if truthyString country.region = true then setAdd sets.2.2 country.region
        else sets.2.2).Nodup := by
      split
      · exact nodup_setAdd _ _ h3
      · exact h3
    cases country.subregion with
    | none => exact hb
    | some sub =>
      simp only
      split
      · exact nodup_setAdd _ _ hb
      · exact hb

theorem mem_foldl_addCountryOptions (data : List Country)
    (sets : List String × List String × List String) (y : String) :
    (y ∈ (data.foldl addCountryOptions sets).1 ↔
      y ∈ sets.1 ∨ ∃ c ∈ data, ∃ m, c.languages = some m ∧ y ∈ m.map Prod.snd) ∧
    (y ∈ (data.foldl addCountryOptions sets).2.1 ↔
      y ∈ sets.2.1 ∨ ∃ c ∈ data, y ∈ c.continents) ∧
    (y ∈ (data.foldl addCountryOptions sets).2.2 ↔
      y ∈ sets.2.2 ∨ (y ≠ "" ∧ ∃ c ∈ data, c.region = y ∨ c.subregion = some y)) := by
  induction data generalizing sets with
  | nil => simp
  | cons a l ih =>
    obtain ⟨i1, i2, i3⟩ := ih (addCountryOptions sets a)
    obtain ⟨a1, a2, a3⟩ := mem_addCountryOptions sets a y
    rw [List.foldl_cons]
    refine ⟨?_, ?_, ?_⟩
    · rw [i1, a1]
      simp only [List.mem_cons, exists_eq_or_imp, or_assoc]
    · rw [i2, a2]
      simp only [List.mem_cons, exists_eq_or_imp, or_assoc]
    · rw [i3, a3]
      constructor
      · rintro ((h | ⟨hn, ha⟩) | ⟨hn, c, hc, hq⟩)
        · exact Or.inl h
        · exact Or.inr ⟨hn, a, List.mem_cons_self _ _, ha⟩
        · exact Or.inr ⟨hn, c, List.mem_cons_of_mem _ hc, hq⟩
      · rintro (h | ⟨hn, c, hc, hq⟩)
        · exact Or.inl (Or.inl h)
        · rcases List.mem_cons.1 hc with rfl | hc
          · exact Or.inl (Or.inr ⟨hn, hq⟩)
          · exact Or.inr ⟨hn, c, hc, hq⟩

theorem nodup_foldl_addCountryOptions (data : List Country)
    (sets : List String × List String × List String)
    (h : sets.1.Nodup ∧ sets.2.1.Nodup ∧ sets.2.2.Nodup) :
    (data.foldl addCountryOptions sets).1.Nodup ∧
      (data.foldl addCountryOptions sets).2.1.Nodup ∧
      (data.foldl addCountryOptions sets).2.2.Nodup := by
  induction data generalizing sets with
  | nil => exact h
  | cons a l ih => exact ih _ (nodup_addCountryOptions sets a h)

theorem mem_arraySortDefault (l : List String) (y : String) : y ∈ arraySortDefault l ↔ y ∈ l :=
  List.mem_insertionSort _

/-- The default sort of an array without duplicates is strictly ascending. -/
theorem arraySortDefault_strict (l : List String) (h : l.Nodup) :
    (arraySortDefault l).Sorted (fun a b => stringLess a b = true) := by
  have agree : ∀ a ∈ l, ∀ b ∈ l, (¬ stringLess b a = true) ↔ keyLE String.data a b := by
    intro a _ b _
    simp [stringLess, keyLE]
  unfold arraySortDefault
  rw [insertionSort_congr _ (keyLE String.data) l agree]
  have hs : (l.insertionSort (keyLE String.data)).Pairwise (keyLE String.data) :=
    List.sorted_insertionSort (keyLE String.data) l
  have hn : (l.insertionSort (keyLE String.data)).Pairwise (fun a b => a ≠ b) :=
    (List.perm_insertionSort (keyLE String.data) l).nodup_iff.2 h
  refine (hs.and hn).imp ?_
  rintro a b ⟨hab, hne⟩
  have hd : a.data ≠ b.data := fun he => hne (String.ext he)
  simpa [stringLess] using lt_of_le_of_ne hab hd

theorem arraySortDefault_nodup (l : List String) (h : l.Nodup) : (arraySortDefault l).Nodup :=
  (List.perm_insertionSort _ l).nodup_iff.2 h

/-- C8, as the script has it: each of the three option lists is strictly
ascending in the case-sensitive order of strings and has no duplicate; a string
is among the languages exactly when some record has it as a language name,
among the continents exactly when some record has it as a continent name, and
among the regions exactly when it is not empty and some record has it as its
region or subregion. -/
theorem initFilterOptions_spec (data : List Country) :
    ((initFilterOptions data).sortedLangs.Sorted (fun a b => stringLess a b = true) ∧
      (initFilterOptions data).sortedContinents.Sorted (fun a b => stringLess a b = true) ∧
      (initFilterOptions data).sortedRegions.Sorted (fun a b => stringLess a b = true)) ∧
    ((initFilterOptions data).sortedLangs.Nodup ∧
      (initFilterOptions data).sortedContinents.Nodup ∧
      (initFilterOptions data).sortedRegions.Nodup) ∧
    (∀ s, s ∈ (initFilterOptions data).sortedLangs ↔
      ∃ c ∈ data, ∃ m, c.languages = some m ∧ s ∈ m.map Prod.snd) ∧
    (∀ s, s ∈ (initFilterOptions data).sortedContinents ↔ ∃ c ∈ data, s ∈ c.continents) ∧
    (∀ s, s ∈ (initFilterOptions data).sortedRegions ↔
      s ≠ "" ∧ ∃ c ∈ data, c.region = s ∨ c.subregion = some s) := by
  obtain ⟨n1, n2, n3⟩ := nodup_foldl_addCountryOptions data ([], [], [])
    ⟨List.nodup_nil, List.nodup_nil, List.nodup_nil⟩
  refine ⟨⟨arraySortDefault_strict _ n1, arraySortDefault_strict _ n2,
    arraySortDefault_strict _ n3⟩,
    ⟨arraySortDefault_nodup _ n1, arraySortDefault_nodup _ n2, arraySortDefault_nodup _ n3⟩,
    ?_, ?_, ?_⟩
  · intro s
    simp only [initFilterOptions, mem_arraySortDefault]
    rw [(mem_foldl_addCountryOptions data ([], [], []) s).1]
    simp
  · intro s
    simp only [initFilterOptions, mem_arraySortDefault]
    rw [(mem_foldl_addCountryOptions data ([], [], []) s).2.1]
    simp
  · intro s
    simp only [initFilterOptions, mem_arraySortDefault]
    rw [(mem_foldl_addCountryOptions data ([], [], []) s).2.2]
    simp

/-- C8 fails as stated: a record carries the empty string as its subregion,
yet the empty string is not among the region options. -/
theorem sortedRegions_skips_empty :
    ¬ ("" ∈ (initFilterOptions [unplacedRecord]).sortedRegions ↔
      ∃ c ∈ [unplacedRecord], c.region = "" ∨ c.subregion = some "") := by
  decide

end WorldEncyclopedia
